import Mathlib

/-!
# Voku belief-consolidation core: formal model and verification

This file embeds the data model and operations of the Voku personal context
engine and proves the specified properties about them.

The belief-consolidation core (Proposition Ledger, Similarity Index,
Deduplicator, Process Engine, Temporal Retrieval) is specified in the
repository's design documents but has no implementation checked in; the
definitions for it below are modelled from the specification, as flagged in
their doc comments.  The frontend utility functions (`formatCurrency`,
`getWorkoutConfig`) are translated directly from the TypeScript source.
-/

namespace Voku

/-- Modelled from the spec: proposition lifecycle status
(`ACTIVE`, `SUPERSEDED`, `CONTRADICTED`, `ARCHIVED`, spec §3). -/
inductive Status where
  | ACTIVE
  | SUPERSEDED
  | CONTRADICTED
  | ARCHIVED
deriving DecidableEq

/-- Modelled from the spec: persisted relationship-edge types
(`UNRELATED` is never stored, spec §3/§4.3). -/
inductive EdgeType where
  | SUPPORTS
  | CONTRADICTS
  | SUPERSEDES
deriving DecidableEq

/-- Modelled from the spec: the relationship classifier's verdict enum
(spec §4.3 step 3, §6). -/
inductive Verdict where
  | SUPPORTS
  | CONTRADICTS
  | SUPERSEDES
  | UNRELATED
deriving DecidableEq

/-- Modelled from the spec: a Proposition — an atomic timestamped belief unit
with immutable content/embedding, bi-temporal fields and lifecycle status
(spec §3).  Machine floats of the embedding are modelled as rationals;
timestamps as naturals. -/
structure Proposition where
  id : Nat
  content : String
  embedding : List ℚ
  recorded_at : Nat
  valid_from : Nat
  valid_to : Option Nat
  status : Status
  confidence : ℚ
deriving DecidableEq

/-- Modelled from the spec: a directed, typed Relationship Edge between two
propositions (spec §3). -/
structure Edge where
  source_id : Nat
  target_id : Nat
  type : EdgeType
  confidence : ℚ
  created_at : Nat
deriving DecidableEq

/-- Modelled from the spec: the Proposition Ledger (system of record) together
with the Process Engine's high-water mark (spec §2, §4.3). -/
structure Ledger where
  props : List Proposition
  edges : List Edge
  watermark : Option Nat
deriving DecidableEq

/-- Dot product of two rational vectors.  Modelled from the spec: the
Similarity Index uses a flat dot product over pre-normalized vectors as the
cosine similarity (spec §4.1). -/
def dot : List ℚ → List ℚ → ℚ
  | a :: as, b :: bs => a * b + dot as bs
  | _, _ => 0

/-- Whether a proposition passes an optional status filter. -/
def statusMatch (filter : Option Status) (p : Proposition) : Bool :=
  match filter with
  | none => true
  | some s => p.status = s

/-- Modelled from the spec: `Similarity Index.search(vector, k, status_filter?)
→ ordered list of (proposition_id, similarity)` — top-K by cosine similarity,
optionally restricted to a status; empty index returns an empty list
(spec §4.1). -/
def search (st : Ledger) (v : List ℚ) (k : Nat) (filter : Option Status) :
    List (Nat × ℚ) :=
  let scored := (st.props.filter (statusMatch filter)).map
    (fun p => (p.id, dot p.embedding v))
  (scored.mergeSort (fun a b => b.2 ≤ a.2)).take k

/-- Modelled from the spec: the Deduplicator contract
`is_duplicate(new_proposition, threshold) → existing_proposition_id | None`:
search restricted to `status = ACTIVE`, returning the top match if its
similarity ≥ threshold (spec §4.2). -/
def is_duplicate (st : Ledger) (emb : List ℚ) (threshold : ℚ) : Option Nat :=
  match search st emb 1 (some Status.ACTIVE) with
  | (i, s) :: _ => if threshold ≤ s then some i else none
  | [] => none

/-- The dedup threshold fixed by the spec (`threshold=0.95`, spec §4.2). -/
def dedupThreshold : ℚ := 95 / 100

/-- Modelled from the spec: ingestion of one candidate proposition — if the
Deduplicator reports a duplicate the proposition is dropped, otherwise it is
persisted to the Ledger (spec §2 data flow, §4.2). -/
def ingestProposition (st : Ledger) (p : Proposition) : Ledger :=
  match is_duplicate st p.embedding dedupThreshold with
  | some _ => st
  | none => { st with props := st.props ++ [p] }

/-- Modelled from the spec: the relationship classifier's raw JSON response
`{relationship, confidence, reasoning}` (spec §6). -/
structure RawResponse where
  relationship : String
  confidence : ℚ
  reasoning : String
deriving DecidableEq

/-- Modelled from the spec: a classifier call per pair of proposition ids;
`none` models a failed call (timeout / unparseable response) (spec §4.3, §6). -/
def Classifier : Type := Nat → Nat → Option RawResponse

/-- Modelled from the spec: validation of the `relationship` value against the
known enum (spec §6). -/
def parseRelationship (s : String) : Option Verdict :=
  if s = "SUPPORTS" then some Verdict.SUPPORTS
  else if s = "CONTRADICTS" then some Verdict.CONTRADICTS
  else if s = "SUPERSEDES" then some Verdict.SUPERSEDES
  else if s = "UNRELATED" then some Verdict.UNRELATED
  else none

/-- Modelled from the spec: a failed call or any unparseable/invalid response
is treated as `UNRELATED` with confidence 0 (spec §4.3 failure semantics, §6). -/
def interpretResponse (r : Option RawResponse) : Verdict × ℚ :=
  match r with
  | none => (Verdict.UNRELATED, 0)
  | some raw =>
    match parseRelationship raw.relationship with
    | some v => (v, raw.confidence)
    | none => (Verdict.UNRELATED, 0)

/-- Look up a proposition by id in the Ledger. -/
def findProp (st : Ledger) (i : Nat) : Option Proposition :=
  st.props.find? (fun p => p.id = i)

/-- Status of the proposition with the given id, if present. -/
def statusOf (st : Ledger) (i : Nat) : Option Status :=
  (findProp st i).map (fun p => p.status)

/-- `valid_to` of the proposition with the given id, if present. -/
def validToOf (st : Ledger) (i : Nat) : Option (Option Nat) :=
  (findProp st i).map (fun p => p.valid_to)

/-- Whether an edge of the given type already exists between the (unordered)
pair.  Modelled from the spec: duplicate edges from re-processing the same
pair are prevented by checking for an existing edge between the pair before
creating a new one (spec §5). -/
def edgeBetween (st : Ledger) (a b : Nat) (t : EdgeType) : Bool :=
  st.edges.any (fun e =>
    e.type = t &&
      ((e.source_id = a && e.target_id = b) ||
        (e.source_id = b && e.target_id = a)))

/-- Whether any edge (of any type) links the pair; used to exclude
already-linked candidates (spec §4.3 step 1). -/
def anyEdgeBetween (st : Ledger) (a b : Nat) : Bool :=
  st.edges.any (fun e =>
    (e.source_id = a && e.target_id = b) ||
      (e.source_id = b && e.target_id = a))

/-- Append an edge unless an edge of the same type already links the pair. -/
def addEdgeIfAbsent (st : Ledger) (e : Edge) : Ledger :=
  if edgeBetween st e.source_id e.target_id e.type then st
  else { st with edges := st.edges ++ [e] }

/-- Modelled from the spec: close a proposition as SUPERSEDED, setting
`valid_to` to the newer proposition's `recorded_at`; only an ACTIVE
proposition ever transitions (spec §4.3 table rows 1 and 4). -/
def closeSuperseded (st : Ledger) (i : Nat) (t : Nat) : Ledger :=
  { st with props := st.props.map (fun p =>
      if p.id = i ∧ p.status = Status.ACTIVE then
        { p with status := Status.SUPERSEDED, valid_to := some t }
      else p) }

/-- Modelled from the spec: mark a proposition CONTRADICTED; only an ACTIVE
proposition ever transitions (spec §4.3 table rows 2 and 4). -/
def markContradicted (st : Ledger) (i : Nat) : Ledger :=
  { st with props := st.props.map (fun p =>
      if p.id = i ∧ p.status = Status.ACTIVE then
        { p with status := Status.CONTRADICTED }
      else p) }

/-- Modelled from the spec: the status state machine of §4.3 — persist an
edge for the first three verdicts (guarded against duplicates), transition
the older proposition only when it is ACTIVE, and leave everything unchanged
for `UNRELATED`.  `nid`/`oid` are the newer/older ids, `np`/`op` the records. -/
def applyVerdict (st : Ledger) (nid oid : Nat) (np op : Proposition)
    (v : Verdict) (conf : ℚ) : Ledger :=
  match v with
  | Verdict.UNRELATED => st
  | Verdict.SUPPORTS =>
    addEdgeIfAbsent st ⟨nid, oid, EdgeType.SUPPORTS, conf, np.recorded_at⟩
  | Verdict.SUPERSEDES =>
    let st1 :=
      addEdgeIfAbsent st ⟨nid, oid, EdgeType.SUPERSEDES, conf, np.recorded_at⟩
    if op.status = Status.ACTIVE then closeSuperseded st1 oid np.recorded_at
    else st1
  | Verdict.CONTRADICTS =>
    let st1 :=
      addEdgeIfAbsent st ⟨nid, oid, EdgeType.CONTRADICTS, conf, np.recorded_at⟩
    if op.status = Status.ACTIVE then
      markContradicted (markContradicted st1 oid) nid
    else st1

/-- Modelled from the spec: process one (newer, older) candidate pair — call
the classifier, interpret the response, and apply the status state machine;
a pair whose ids do not resolve changes nothing (spec §4.3 steps 3-4). -/
def processPair (c : Classifier) (st : Ledger) (pr : Nat × Nat) : Ledger :=
  match findProp st pr.1, findProp st pr.2 with
  | some np, some op =>
    applyVerdict st pr.1 pr.2 np op (interpretResponse (c pr.1 pr.2)).1
      (interpretResponse (c pr.1 pr.2)).2
  | _, _ => st

/-- Whether a timestamp is strictly newer than the watermark (spec §4.3:
only propositions strictly newer than the high-water mark are scanned). -/
def isNewB (wm : Option Nat) (t : Nat) : Bool :=
  match wm with
  | none => true
  | some w => w < t

/-- The batch of propositions strictly newer than the watermark. -/
def newPropositions (st : Ledger) : List Proposition :=
  st.props.filter (fun p => isNewB st.watermark p.recorded_at)

/-- Modelled from the spec: candidate discovery for one new proposition — the
top-K most similar strictly-older existing propositions above the relatedness
threshold, excluding the proposition itself and anything already linked to it
(spec §4.3 steps 1-2). -/
def candidatesFor (st : Ledger) (k : Nat) (θ : ℚ) (np : Proposition) :
    List Nat :=
  let olders := st.props.filter (fun q =>
    q.recorded_at < np.recorded_at && !(q.id = np.id) &&
      !(anyEdgeBetween st np.id q.id) &&
      (θ ≤ dot q.embedding np.embedding : Bool))
  let scored := olders.map (fun q => (q.id, dot q.embedding np.embedding))
  ((scored.mergeSort (fun a b => b.2 ≤ a.2)).take k).map (fun x => x.1)

/-- The (newer, older) pairs a Process Engine run submits to the classifier. -/
def runPairs (st : Ledger) (k : Nat) (θ : ℚ) : List (Nat × Nat) :=
  (newPropositions st).flatMap (fun np =>
    (candidatesFor st k θ np).map (fun oid => (np.id, oid)))

/-- Advance the high-water mark to the maximum `recorded_at` of the processed
batch (spec §4.3 idempotency requirement). -/
def batchMax (wm : Option Nat) (ps : List Proposition) : Option Nat :=
  ps.foldl (fun acc p =>
    match acc with
    | none => some p.recorded_at
    | some m => some (max m p.recorded_at)) wm

/-- Modelled from the spec: `ProcessEngine.process_new` — scan propositions
strictly newer than the watermark, classify each candidate pair, apply the
status state machine and persist edges, then advance the watermark to the
maximum `recorded_at` processed (spec §4.3). -/
def processNew (c : Classifier) (k : Nat) (θ : ℚ) (st : Ledger) : Ledger :=
  let batch := newPropositions st
  let st1 := (runPairs st k θ).foldl (processPair c) st
  { st1 with watermark := batchMax st.watermark batch }

/-- One ranked retrieval result: proposition id and adjusted score. -/
structure RetrievalResult where
  prop_id : Nat
  score : ℚ
deriving DecidableEq

/-- Modelled from the spec: `recency_score`, a monotonically decreasing
function of age (spec §4.5); here `1 / (1 + age)`, valued in `(0, 1]`. -/
def recencyScore (now t : Nat) : ℚ :=
  1 / (1 + ((now - t : Nat) : ℚ))

/-- Modelled from the spec:
`combined_score = similarity * (1 - temporal_weight) + recency_score * temporal_weight`
(spec §4.5). -/
def combinedScore (sim rec tw : ℚ) : ℚ :=
  sim * (1 - tw) + rec * tw

/-- Modelled from the spec: the status penalty that deprioritizes
SUPERSEDED/CONTRADICTED propositions relative to ACTIVE ones; the penalty
must dominate any combined-score gap (spec §4.5, §8 retrieval substitution). -/
def statusPenalty : Status → ℚ
  | Status.ACTIVE => 0
  | Status.SUPERSEDED => 4
  | Status.CONTRADICTED => 4
  | Status.ARCHIVED => 0

/-- Modelled from the spec: `TemporalRetrievalService.retrieve` — score every
stored proposition (all statuses, not just ACTIVE) by combined score, subtract
the status penalty unless the caller explicitly requests history, and return
the top `limit` by adjusted score (spec §4.5). -/
def retrieve (st : Ledger) (qEmb : List ℚ) (limit : Nat) (tw : ℚ) (now : Nat)
    (includeHistory : Bool) : List RetrievalResult :=
  let scored := st.props.map (fun p =>
    let base := combinedScore (dot p.embedding qEmb)
      (recencyScore now p.recorded_at) tw
    let adj := if includeHistory then base else base - statusPenalty p.status
    RetrievalResult.mk p.id adj)
  (scored.mergeSort (fun a b => b.score ≤ a.score)).take limit

end Voku

namespace Frontend

/-- A Lucide icon reference, as imported by the dashboard component. -/
inductive LucideIcon where
  | Bike
  | Footprints
  | Waves
  | Dumbbell
  | Activity
deriving DecidableEq

/-- The per-workout-type display configuration record
(`{ icon, color, bg, border }` in the TypeScript source). -/
structure WorkoutCfg where
  icon : LucideIcon
  color : String
  bg : String
  border : String
deriving DecidableEq

/-- The `workoutConfig` record from the dashboard component, as an association
list in source order. -/
def workoutConfig : List (String × WorkoutCfg) :=
  [("Indoor Cycle",
      ⟨LucideIcon.Bike, "#e6773a", "rgba(230, 119, 58, 0.2)",
        "2px solid rgba(230, 119, 58, 0.4)"⟩),
   ("Cycling",
      ⟨LucideIcon.Bike, "#e6773a", "rgba(230, 119, 58, 0.2)",
        "2px solid rgba(230, 119, 58, 0.4)"⟩),
   ("Running",
      ⟨LucideIcon.Footprints, "#5a9f6e", "rgba(90, 159, 110, 0.2)",
        "2px solid rgba(90, 159, 110, 0.4)"⟩),
   ("Swimming",
      ⟨LucideIcon.Waves, "#36b8c8", "rgba(54, 184, 200, 0.2)",
        "2px solid rgba(54, 184, 200, 0.4)"⟩),
   ("Strength",
      ⟨LucideIcon.Dumbbell, "#9c67cc", "rgba(156, 103, 204, 0.2)",
        "2px solid rgba(156, 103, 204, 0.4)"⟩),
   ("Rowing",
      ⟨LucideIcon.Activity, "#5d8fb0", "rgba(93, 143, 176, 0.2)",
        "2px solid rgba(93, 143, 176, 0.4)"⟩),
   ("Upper Body",
      ⟨LucideIcon.Dumbbell, "#9c67cc", "rgba(156, 103, 204, 0.2)",
        "2px solid rgba(156, 103, 204, 0.4)"⟩),
   ("S&S",
      ⟨LucideIcon.Dumbbell, "#9c67cc", "rgba(156, 103, 204, 0.2)",
        "2px solid rgba(156, 103, 204, 0.4)"⟩),
   ("Zone 2 Row",
      ⟨LucideIcon.Activity, "#5d8fb0", "rgba(93, 143, 176, 0.2)",
        "2px solid rgba(93, 143, 176, 0.4)"⟩),
   ("Zone 2 Bike",
      ⟨LucideIcon.Bike, "#e6773a", "rgba(230, 119, 58, 0.2)",
        "2px solid rgba(230, 119, 58, 0.4)"⟩)]

/-- The fallback configuration returned for unknown workout types. -/
def fallbackCfg : WorkoutCfg :=
  ⟨LucideIcon.Activity, "#9a9286", "rgba(154, 146, 134, 0.15)",
    "1px solid rgba(154, 146, 134, 0.3)"⟩

/-- A JavaScript value that `workoutConfig[type] || fallback` can evaluate
to: a workout-config record (an own entry or the fallback literal), or an
inherited `Object.prototype` member (a function, or `Object.prototype`
itself for `__proto__`) — all truthy, so `||` does not replace them. -/
inductive JsValue where
  | cfg (c : WorkoutCfg)
  | protoMember (name : String)
deriving DecidableEq

/-- The property names every JavaScript object literal inherits from
`Object.prototype`; each resolves to a truthy value. -/
def protoMembers : List String :=
  ["constructor", "hasOwnProperty", "isPrototypeOf", "propertyIsEnumerable",
   "toLocaleString", "toString", "valueOf", "__proto__",
   "__defineGetter__", "__defineSetter__", "__lookupGetter__",
   "__lookupSetter__"]

/-- `getWorkoutConfig(type)`: `workoutConfig[type] || fallback` from the
dashboard component.  JavaScript bracket lookup on the object literal first
checks own keys, then the prototype chain: an own entry (truthy) is
returned; an inherited `Object.prototype` member (also truthy) is returned
as-is — `||` does not fall through to the fallback for it; only a genuinely
absent key yields `undefined`, which is falsy, so the fallback literal is
returned. -/
def getWorkoutConfig (t : String) : JsValue :=
  match workoutConfig.find? (fun kv => kv.1 = t) with
  | some kv => JsValue.cfg kv.2
  | none =>
    if t ∈ protoMembers then JsValue.protoMember t
    else JsValue.cfg fallbackCfg

/-- Decimal digit character for `n < 10` (ASCII `'0' + n`). -/
def digitChar (n : Nat) : Char :=
  Char.ofNat (48 + n)

/-- Fuel-bounded decimal digit expansion, most significant digit first.
The fuel never runs out for the fuel budget `natDigits` supplies. -/
def natDigitsAux : Nat → Nat → List Char
  | 0, _ => []
  | fuel + 1, n =>
    if n < 10 then [digitChar n]
    else natDigitsAux fuel (n / 10) ++ [digitChar (n % 10)]

/-- Decimal digit expansion of a natural number, most significant first
(the digit string a JS number prints for an integer). -/
def natDigits (n : Nat) : List Char :=
  natDigitsAux (n + 1) n

/-- `Number.prototype.toFixed(2)` on a nonnegative amount: round to the
nearest hundredth (half away from zero) and print with exactly two decimal
places. -/
def toFixed2 (q : ℚ) : String :=
  let cents : Nat := (⌊q * 100 + 1 / 2⌋).toNat
  String.mk (natDigits (cents / 100) ++
    ['.', digitChar (cents % 100 / 10), digitChar (cents % 10)])

/-- `formatCurrency` from `src/frontend/src/lib/utils.ts`:
`amount < 0 ? "-$" + abs.toFixed(2) : "$" + abs.toFixed(2)` (for
`amount ≥ 0`, `abs` equals `amount`).  The finite JS number is modelled as a
rational. -/
def formatCurrency (amount : ℚ) : String :=
  let absAmount := |amount|
  let formatted := toFixed2 absAmount
  if amount < 0 then String.mk ('-' :: '$' :: formatted.data)
  else String.mk ('$' :: formatted.data)

/-- Scanner for an occurrence of the character `'$'` immediately followed by
`'-'` (the `"$-"` substring) in a character list. -/
def hasDollarMinus : List Char → Bool
  | c1 :: c2 :: rest => (c1 = '$' && c2 = '-') || hasDollarMinus (c2 :: rest)
  | _ => false

end Frontend

namespace Voku

/-- The edge type persisted for a classifier verdict; `UNRELATED` persists
nothing (spec §4.3 step 3). -/
def verdictEdge : Verdict → Option EdgeType
  | Verdict.SUPPORTS => some EdgeType.SUPPORTS
  | Verdict.CONTRADICTS => some EdgeType.CONTRADICTS
  | Verdict.SUPERSEDES => some EdgeType.SUPERSEDES
  | Verdict.UNRELATED => none

/-- The immutable frame of a proposition: everything except `status` and
`valid_to` (spec §3 invariant). -/
def frameOf (p : Proposition) : Nat × String × List ℚ × Nat × Nat :=
  (p.id, p.content, p.embedding, p.recorded_at, p.valid_from)

/-- A proposition-transforming function that may touch only `status` and
`valid_to`, and leaves non-ACTIVE propositions entirely unchanged. -/
def statusOnly (g : Proposition → Proposition) : Prop :=
  ∀ p, frameOf (g p) = frameOf p ∧ (p.status ≠ Status.ACTIVE → g p = p)

/-- The number of stored edges of a given type between an unordered pair;
"no duplicate edges" means this never exceeds one (spec §4.3 idempotency,
§5). -/
def edgeKeyCount (st : Ledger) (a b : Nat) (t : EdgeType) : Nat :=
  (st.edges.filter (fun e =>
    e.type = t &&
      ((e.source_id = a && e.target_id = b) ||
        (e.source_id = b && e.target_id = a)))).length

/-- Predicate (as a Bool) for a CONTRADICTS edge between an unordered pair. -/
def contradictsBetween (a b : Nat) (e : Edge) : Bool :=
  e.type = EdgeType.CONTRADICTS &&
    ((e.source_id = a && e.target_id = b) ||
      (e.source_id = b && e.target_id = a))

/-- Example fixture: the older proposition of the supersession scenario. -/
def exP1 : Proposition :=
  ⟨1, "ankle is my main limiter", [1, 0], 1, 1, none, Status.ACTIVE, 1⟩

/-- Example fixture: the newer proposition of the supersession scenario. -/
def exP2 : Proposition :=
  ⟨2, "breathing is my main limiter", [4 / 5, 3 / 5], 2, 2, none,
    Status.ACTIVE, 9 / 10⟩

/-- Example fixture: an incoming proposition at similarity exactly 0.95 to
`exP1`. -/
def exPB95 : Proposition :=
  ⟨2, "dup candidate", [19 / 20, 0], 2, 2, none, Status.ACTIVE, 1⟩

/-- Example fixture: an incoming proposition at similarity 0.94 to `exP1`. -/
def exPB94 : Proposition :=
  ⟨3, "near dup candidate", [47 / 50, 0], 3, 3, none, Status.ACTIVE, 1⟩

/-- Example fixture: a one-proposition ledger holding `exP1`. -/
def exLedger1 : Ledger := ⟨[exP1], [], none⟩

/-- Example fixture: a two-proposition ledger for process-engine scenarios. -/
def exLedger2 : Ledger := ⟨[exP1, exP2], [], none⟩

/-- Example fixture: a classifier that always answers SUPERSEDES. -/
def exSupersedes : Classifier := fun _ _ => some ⟨"SUPERSEDES", 9 / 10, "r"⟩

/-- Example fixture: a classifier that always answers CONTRADICTS. -/
def exContradicts : Classifier := fun _ _ => some ⟨"CONTRADICTS", 9 / 10, "r"⟩

/-- Example fixture: a classifier whose every call fails (timeout). -/
def exFailing : Classifier := fun _ _ => none

/-- Example fixture: an already-closed (SUPERSEDED) proposition. -/
def exClosed : Proposition :=
  ⟨3, "former belief", [1, 0], 1, 1, some 2, Status.SUPERSEDED, 1⟩

/-- Example fixture: a ledger holding a closed proposition and a newer active
one. -/
def exLedgerClosed : Ledger := ⟨[exClosed, exP2], [], none⟩

/-- Example fixture: a ledger for the retrieval-substitution scenario — the
superseded proposition has raw similarity 1 to the query `[1, 0]`, the ACTIVE
superseding proposition only 3/5. -/
def exRetrLedger : Ledger :=
  ⟨[⟨1, "ankle", [1, 0], 1, 1, some 2, Status.SUPERSEDED, 1⟩,
    ⟨2, "breathing", [3 / 5, 4 / 5], 2, 2, none, Status.ACTIVE, 1⟩],
   [⟨2, 1, EdgeType.SUPERSEDES, 9 / 10, 2⟩], some 2⟩

end Voku

section FrontendProofs

open Frontend

/-- Every character a fuel-bounded digit expansion emits is a decimal digit
character. -/
theorem mem_natDigitsAux (fuel n : Nat) :
    ∀ c ∈ natDigitsAux fuel n, ∃ d, d < 10 ∧ c = digitChar d := by
  induction fuel generalizing n with
  | zero => intro c hc; simp [natDigitsAux] at hc
  | succ fuel ih =>
    intro c hc
    rw [natDigitsAux] at hc
    by_cases hn : n < 10
    · rw [if_pos hn, List.mem_singleton] at hc
      exact ⟨n, hn, hc⟩
    · rw [if_neg hn] at hc
      rcases List.mem_append.mp hc with h | h
      · exact ih (n / 10) c h
      · rw [List.mem_singleton] at h
        exact ⟨n % 10, Nat.mod_lt _ (by omega), h⟩

/-- No decimal digit character is `'$'` or `'-'`. -/
theorem digitChar_ne_special : ∀ d, d < 10 →
    digitChar d ≠ '$' ∧ digitChar d ≠ '-' := by decide

/-- Every character `toFixed2` emits is a digit or the decimal point; in
particular, none is `'$'` or `'-'`. -/
theorem toFixed2_chars_ok (q : ℚ) :
    ∀ c ∈ (toFixed2 q).data, c ≠ '$' ∧ c ≠ '-' := by
  intro c hc
  have hdata : (toFixed2 q).data =
      natDigits ((⌊q * 100 + 1 / 2⌋).toNat / 100) ++
        ['.', digitChar ((⌊q * 100 + 1 / 2⌋).toNat % 100 / 10),
          digitChar ((⌊q * 100 + 1 / 2⌋).toNat % 10)] := rfl
  rw [hdata] at hc
  rcases List.mem_append.mp hc with h | h
  · obtain ⟨d, hd, rfl⟩ := mem_natDigitsAux _ _ c h
    exact digitChar_ne_special d hd
  · simp only [List.mem_cons, List.not_mem_nil, or_false] at h
    rcases h with h | h | h
    · subst h; exact ⟨by decide, by decide⟩
    · subst h; exact digitChar_ne_special _ (by omega)
    · subst h; exact digitChar_ne_special _ (by omega)

/-- A character list without `'$'` never triggers the `"$-"` scanner. -/
theorem hasDollarMinus_of_no_dollar :
    ∀ l : List Char, (∀ c ∈ l, c ≠ '$') → hasDollarMinus l = false := by
  intro l
  induction l with
  | nil => intro _; rfl
  | cons c rest ih =>
    intro h
    cases rest with
    | nil => rfl
    | cons c2 r2 =>
      have hc : c ≠ '$' := h c (List.mem_cons_self _ _)
      have htail : ∀ x ∈ c2 :: r2, x ≠ '$' := fun x hx =>
        h x (List.mem_cons_of_mem _ hx)
      rw [hasDollarMinus]
      rw [ih htail]
      simp [hc]

end FrontendProofs

section FrontendClaims

open Frontend

/-- A `'$'`-free, `'-'`-free character block, prefixed by `'$'` or by
`"-$"`, never contains the substring `"$-"`. -/
theorem hasDollarMinus_prefixed (l : List Char)
    (h : ∀ c ∈ l, c ≠ '$' ∧ c ≠ '-') (hl : l ≠ []) :
    hasDollarMinus ('$' :: l) = false ∧
      hasDollarMinus ('-' :: '$' :: l) = false := by
  have hnd : ∀ c ∈ l, c ≠ '$' := fun c hc => (h c hc).1
  cases l with
  | nil => exact absurd rfl hl
  | cons c r =>
    have hcm : c ≠ '-' := (h c (List.mem_cons_self _ _)).2
    have h1 : hasDollarMinus ('$' :: c :: r) = false := by
      rw [hasDollarMinus, hasDollarMinus_of_no_dollar _ hnd]
      simp [hcm]
    refine ⟨h1, ?_⟩
    rw [hasDollarMinus, h1]
    simp

/-- C9: for every finite amount (modelled as a rational), `formatCurrency`
returns `"-$"` followed by the two-decimal rendering of the absolute value
when the amount is negative, and `"$"` followed by the two-decimal rendering
when it is nonnegative; the minus sign always precedes the dollar sign, the
output never contains `"$-"`, and `formatCurrency 0 = "$0.00"`. -/
theorem C9_formatCurrency_sign_layout (q : ℚ) :
    (q < 0 → formatCurrency q =
      String.mk ('-' :: '$' :: (toFixed2 |q|).data)) ∧
    (0 ≤ q → formatCurrency q =
      String.mk ('$' :: (toFixed2 q).data)) ∧
    hasDollarMinus (formatCurrency q).data = false ∧
    formatCurrency 0 = "$0.00" := by
  have hdata : (toFixed2 |q|).data ≠ [] := by
    have : (toFixed2 |q|).data =
        natDigits ((⌊|q| * 100 + 1 / 2⌋).toNat / 100) ++
          ['.', digitChar ((⌊|q| * 100 + 1 / 2⌋).toNat % 100 / 10),
            digitChar ((⌊|q| * 100 + 1 / 2⌋).toNat % 10)] := rfl
    rw [this]
    simp
  refine ⟨?_, ?_, ?_, by with_unfolding_all rfl⟩
  · intro hq
    rw [formatCurrency, if_pos hq]
  · intro hq
    rw [formatCurrency, if_neg (not_lt.mpr hq), abs_of_nonneg hq]
  · rw [formatCurrency]
    by_cases hq : q < 0
    · rw [if_pos hq]
      show hasDollarMinus ('-' :: '$' :: (toFixed2 |q|).data) = false
      exact (hasDollarMinus_prefixed _ (toFixed2_chars_ok |q|) hdata).2
    · rw [if_neg hq]
      show hasDollarMinus ('$' :: (toFixed2 |q|).data) = false
      exact (hasDollarMinus_prefixed _ (toFixed2_chars_ok |q|) hdata).1

/-- Witness for C9: the negative branch at −5.76 and both closed facts. -/
theorem C9_witness :
    formatCurrency (-(576 / 100)) = "-$5.76" ∧
      formatCurrency 0 = "$0.00" := by
  have h := C9_formatCurrency_sign_layout (-(576 / 100))
  refine ⟨?_, h.2.2.2⟩
  rw [h.1 (by norm_num)]
  with_unfolding_all rfl

/-- Counterexample for C10 as stated: `"constructor"` is not a configured
workout type, yet JavaScript bracket lookup finds the inherited (truthy)
`Object.prototype.constructor` member, so `||` keeps it and the function
does not return the fixed fallback config. -/
theorem C10_counterexample :
    getWorkoutConfig "constructor" = JsValue.protoMember "constructor" ∧
      getWorkoutConfig "constructor" ≠ JsValue.cfg fallbackCfg := by
  constructor
  · decide
  · decide

/-- C10 (amended): `getWorkoutConfig` returns each configured key's own
entry; for any string that is neither a configured key nor an inherited
`Object.prototype` member name it returns the fixed fallback config (icon
`Activity`, color `"#9a9286"`); for an `Object.prototype` member name it
returns that inherited truthy member instead of a config object. -/
theorem C10_getWorkoutConfig_amended :
    (∀ kv ∈ workoutConfig, getWorkoutConfig kv.1 = JsValue.cfg kv.2) ∧
    (∀ t : String, t ∉ workoutConfig.map Prod.fst → t ∉ protoMembers →
      getWorkoutConfig t = JsValue.cfg fallbackCfg) ∧
    (∀ t : String, t ∉ workoutConfig.map Prod.fst → t ∈ protoMembers →
      getWorkoutConfig t = JsValue.protoMember t) ∧
    fallbackCfg.icon = LucideIcon.Activity ∧
    fallbackCfg.color = "#9a9286" := by
  have hnone : ∀ t : String, t ∉ workoutConfig.map Prod.fst →
      workoutConfig.find? (fun kv => kv.1 = t) = none := by
    intro t ht
    rw [List.find?_eq_none]
    intro kv hkv
    simp only [decide_eq_true_eq]
    intro h
    exact ht (h ▸ List.mem_map_of_mem Prod.fst hkv)
  refine ⟨?_, ?_, ?_, rfl, rfl⟩
  · intro kv hkv
    fin_cases hkv <;> rfl
  · intro t ht hp
    rw [getWorkoutConfig, hnone t ht, if_neg hp]
  · intro t ht hp
    rw [getWorkoutConfig, hnone t ht, if_pos hp]

/-- Witness for the amended C10: an unknown non-prototype workout type gets
the fallback config, a configured key gets its entry, and a prototype member
name gets the inherited member. -/
theorem C10_witness :
    getWorkoutConfig "Pilates" = JsValue.cfg fallbackCfg ∧
      getWorkoutConfig "Running" =
        JsValue.cfg ⟨LucideIcon.Footprints, "#5a9f6e",
          "rgba(90, 159, 110, 0.2)", "2px solid rgba(90, 159, 110, 0.4)"⟩ ∧
      getWorkoutConfig "toString" = JsValue.protoMember "toString" := by
  refine ⟨?_, ?_, ?_⟩
  · exact C10_getWorkoutConfig_amended.2.1 "Pilates"
      (by decide) (by decide)
  · exact C10_getWorkoutConfig_amended.1
      ("Running",
        ⟨LucideIcon.Footprints, "#5a9f6e", "rgba(90, 159, 110, 0.2)",
          "2px solid rgba(90, 159, 110, 0.4)"⟩)
      (by simp [workoutConfig])
  · exact C10_getWorkoutConfig_amended.2.2.1 "toString"
      (by decide) (by decide)

end FrontendClaims

section CoreProofs

open Voku

/-- Descending sort by a rational key yields a pairwise-descending list. -/
theorem pairwise_mergeSort_key {α : Type} (key : α → ℚ) (l : List α) :
    List.Pairwise (fun a b => key b ≤ key a)
      (l.mergeSort (fun a b => key b ≤ key a)) := by
  have h := @List.sorted_mergeSort α (fun a b : α => (key b ≤ key a : Bool))
    (fun a b c hab hbc => by
      simp only [decide_eq_true_eq] at hab hbc ⊢
      exact le_trans hbc hab)
    (fun a b => by
      simp only [Bool.or_eq_true, decide_eq_true_eq]
      exact le_total (key b) (key a))
    l
  refine h.imp ?_
  intro a b hab
  simpa using hab

/-- The head of a nonempty top-1 ACTIVE-restricted search is the similarity
maximum over ACTIVE propositions, and comes from an ACTIVE proposition. -/
theorem search_head (st : Ledger) (emb : List ℚ) (hd : Nat × ℚ)
    (tl : List (Nat × ℚ))
    (h : search st emb 1 (some Status.ACTIVE) = hd :: tl) :
    (∃ p ∈ st.props, p.status = Status.ACTIVE ∧
      hd = (p.id, dot p.embedding emb)) ∧
    ∀ q ∈ st.props, q.status = Status.ACTIVE →
      dot q.embedding emb ≤ hd.2 := by
  rw [search] at h
  set scored := (st.props.filter (statusMatch (some Status.ACTIVE))).map
    (fun p => (p.id, dot p.embedding emb)) with hscored
  set sorted := scored.mergeSort (fun a b => b.2 ≤ a.2) with hsorted
  have hperm : sorted.Perm scored := List.mergeSort_perm scored _
  have hpair : List.Pairwise (fun a b : Nat × ℚ => b.2 ≤ a.2) sorted := by
    have := pairwise_mergeSort_key (fun x : Nat × ℚ => x.2) scored
    simpa [hsorted] using this
  cases hs : sorted with
  | nil => rw [hs] at h; cases h
  | cons a l' =>
    rw [hs] at h
    simp only [List.take_succ_cons, List.take_zero] at h
    cases h
    have hmem : hd ∈ scored := hperm.mem_iff.mp (by rw [hs]; simp)
    constructor
    · rw [hscored] at hmem
      rcases List.mem_map.mp hmem with ⟨p, hp, hfp⟩
      rcases List.mem_filter.mp hp with ⟨hps, hstat⟩
      refine ⟨p, hps, ?_, hfp.symm⟩
      simpa [statusMatch] using hstat
    · intro q hq hqa
      have hqs : (q.id, dot q.embedding emb) ∈ scored := by
        rw [hscored]
        exact List.mem_map_of_mem _
          (List.mem_filter.mpr ⟨hq, by simp [statusMatch, hqa]⟩)
      have hqsorted : (q.id, dot q.embedding emb) ∈ sorted :=
        hperm.symm.mem_iff.mp hqs
      rw [hs] at hqsorted
      rcases List.mem_cons.mp hqsorted with heq | htl
      · rw [← heq]
      · have := (List.pairwise_cons.mp (hs ▸ hpair)).1 _ htl
        exact this

/-- A stored ACTIVE proposition makes the top-1 ACTIVE-restricted search
nonempty. -/
theorem search_active_nonempty (st : Ledger) (emb : List ℚ)
    (p : Proposition) (hp : p ∈ st.props) (hpa : p.status = Status.ACTIVE) :
    ∃ hd tl, search st emb 1 (some Status.ACTIVE) = hd :: tl := by
  set scored := (st.props.filter (statusMatch (some Status.ACTIVE))).map
    (fun p => (p.id, dot p.embedding emb)) with hscored
  have hse : search st emb 1 (some Status.ACTIVE)
      = (scored.mergeSort (fun a b => b.2 ≤ a.2)).take 1 := rfl
  have hmem : (p.id, dot p.embedding emb) ∈ scored := by
    rw [hscored]
    exact List.mem_map_of_mem _
      (List.mem_filter.mpr ⟨hp, by simp [statusMatch, hpa]⟩)
  have hperm : (scored.mergeSort (fun a b => b.2 ≤ a.2)).Perm scored :=
    List.mergeSort_perm scored _
  have hmem2 : (p.id, dot p.embedding emb)
      ∈ scored.mergeSort (fun a b => b.2 ≤ a.2) :=
    hperm.symm.mem_iff.mp hmem
  rcases hms : scored.mergeSort (fun a b => b.2 ≤ a.2) with _ | ⟨a, l2⟩
  · rw [hms] at hmem2
    cases hmem2
  · refine ⟨a, [], ?_⟩
    rw [hse, hms]
    simp

/-- C3: `is_duplicate` returns an existing id exactly when the top ACTIVE
similarity match reaches the 0.95 threshold — both directions: any returned
id belongs to an ACTIVE stored proposition of maximal similarity ≥ 0.95, and
an id is returned precisely when some ACTIVE proposition (hence the top
match) reaches ≥ 0.95; if every ACTIVE proposition is strictly below 0.95
nothing is returned; a pair at exactly 0.95 yields one stored proposition, a
pair at 0.94 yields two. -/
theorem C3_dedup_threshold_boundary (st : Ledger) (emb : List ℚ) :
    (∀ i, is_duplicate st emb dedupThreshold = some i →
      ∃ p ∈ st.props, p.id = i ∧ p.status = Status.ACTIVE ∧
        dedupThreshold ≤ dot p.embedding emb ∧
        ∀ q ∈ st.props, q.status = Status.ACTIVE →
          dot q.embedding emb ≤ dot p.embedding emb) ∧
    ((∃ i, is_duplicate st emb dedupThreshold = some i) ↔
      ∃ p ∈ st.props, p.status = Status.ACTIVE ∧
        dedupThreshold ≤ dot p.embedding emb) ∧
    ((∀ q ∈ st.props, q.status = Status.ACTIVE →
        dot q.embedding emb < dedupThreshold) →
      is_duplicate st emb dedupThreshold = none) ∧
    (ingestProposition exLedger1 exPB95).props.length = 1 ∧
    (ingestProposition exLedger1 exPB94).props.length = 2 := by
  have hsound : ∀ i, is_duplicate st emb dedupThreshold = some i →
      ∃ p ∈ st.props, p.id = i ∧ p.status = Status.ACTIVE ∧
        dedupThreshold ≤ dot p.embedding emb ∧
        ∀ q ∈ st.props, q.status = Status.ACTIVE →
          dot q.embedding emb ≤ dot p.embedding emb := by
    intro i hi
    rcases hsearch : search st emb 1 (some Status.ACTIVE) with _ | ⟨⟨j, s⟩, tl⟩
    · rw [is_duplicate, hsearch] at hi; cases hi
    · rw [is_duplicate, hsearch] at hi
      have hi2 : (if dedupThreshold ≤ s then some j else none) = some i := hi
      by_cases hth : dedupThreshold ≤ s
      · rw [if_pos hth] at hi2
        cases hi2
        rcases search_head st emb _ _ hsearch with ⟨⟨p, hp, hpa, hpd⟩, hmax⟩
        cases hpd
        exact ⟨p, hp, rfl, hpa, hth, hmax⟩
      · rw [if_neg hth] at hi2; cases hi2
  refine ⟨hsound, ?_, ?_, by with_unfolding_all rfl,
    by with_unfolding_all rfl⟩
  · constructor
    · rintro ⟨i, hi⟩
      obtain ⟨p, hp, _, hpa, hth, _⟩ := hsound i hi
      exact ⟨p, hp, hpa, hth⟩
    · rintro ⟨p, hp, hpa, hth⟩
      obtain ⟨hd, tl, hs⟩ := search_active_nonempty st emb p hp hpa
      obtain ⟨_, hmax⟩ := search_head st emb hd tl hs
      have hhd : dedupThreshold ≤ hd.2 := le_trans hth (hmax p hp hpa)
      obtain ⟨j, sc⟩ := hd
      refine ⟨j, ?_⟩
      rw [is_duplicate, hs]
      show (if dedupThreshold ≤ sc then some j else none) = some j
      rw [if_pos hhd]
  · intro hall
    rcases hsearch : search st emb 1 (some Status.ACTIVE) with _ | ⟨⟨j, s⟩, tl⟩
    · rw [is_duplicate, hsearch]
    · rw [is_duplicate, hsearch]
      rcases search_head st emb _ _ hsearch with ⟨⟨p, hp, hpa, hpd⟩, _⟩
      cases hpd
      show (if dedupThreshold ≤ dot p.embedding emb then some p.id else none)
        = none
      rw [if_neg (not_le.mpr (hall p hp hpa))]

/-- Witness for C3: on the concrete one-proposition ledger the duplicate
check fires at similarity exactly 0.95, returning the stored ACTIVE maximal
match, and both boundary ingestions behave as claimed. -/
theorem C3_witness :
    (∃ p ∈ exLedger1.props, p.id = 1 ∧ p.status = Status.ACTIVE ∧
      dedupThreshold ≤ dot p.embedding exPB95.embedding ∧
      ∀ q ∈ exLedger1.props, q.status = Status.ACTIVE →
        dot q.embedding exPB95.embedding ≤ dot p.embedding exPB95.embedding) ∧
    (∃ i, is_duplicate exLedger1 exPB95.embedding dedupThreshold
      = some i) ∧
    (ingestProposition exLedger1 exPB95).props.length = 1 ∧
    (ingestProposition exLedger1 exPB94).props.length = 2 := by
  have h := C3_dedup_threshold_boundary exLedger1 exPB95.embedding
  refine ⟨h.1 1 (by with_unfolding_all rfl), ?_, h.2.2.2.1, h.2.2.2.2⟩
  exact (h.2.1).mpr ⟨exP1, of_decide_eq_true (by with_unfolding_all rfl),
    rfl, of_decide_eq_true (by with_unfolding_all rfl)⟩

end CoreProofs

section ShapeLemmas

open Voku

/-- The identity touches nothing. -/
theorem statusOnly_id : statusOnly id := by
  intro p
  exact ⟨rfl, fun _ => rfl⟩

/-- Status-only transformations compose. -/
theorem statusOnly_comp {g g' : Proposition → Proposition}
    (hg : statusOnly g) (hg' : statusOnly g') : statusOnly (g' ∘ g) := by
  intro p
  constructor
  · rw [Function.comp_apply, (hg' (g p)).1, (hg p).1]
  · intro hp
    rw [Function.comp_apply, (hg p).2 hp, (hg' p).2 hp]

/-- `closeSuperseded` rewrites the proposition list through a status-only
map. -/
theorem closeSuperseded_shape (st : Ledger) (i t : Nat) :
    ∃ g, (closeSuperseded st i t).props = st.props.map g ∧ statusOnly g ∧
      (closeSuperseded st i t).edges = st.edges ∧
      (closeSuperseded st i t).watermark = st.watermark := by
  refine ⟨_, rfl, ?_, rfl, rfl⟩
  intro p
  constructor
  · show frameOf (if p.id = i ∧ p.status = Status.ACTIVE then
        { p with status := Status.SUPERSEDED, valid_to := some t } else p) =
      frameOf p
    split <;> rfl
  · intro hp
    show (if p.id = i ∧ p.status = Status.ACTIVE then
        { p with status := Status.SUPERSEDED, valid_to := some t } else p) = p
    rw [if_neg]
    rintro ⟨_, hact⟩
    exact hp hact

/-- `markContradicted` rewrites the proposition list through a status-only
map. -/
theorem markContradicted_shape (st : Ledger) (i : Nat) :
    ∃ g, (markContradicted st i).props = st.props.map g ∧ statusOnly g ∧
      (markContradicted st i).edges = st.edges ∧
      (markContradicted st i).watermark = st.watermark := by
  refine ⟨_, rfl, ?_, rfl, rfl⟩
  intro p
  constructor
  · show frameOf (if p.id = i ∧ p.status = Status.ACTIVE then
        { p with status := Status.CONTRADICTED } else p) = frameOf p
    split <;> rfl
  · intro hp
    show (if p.id = i ∧ p.status = Status.ACTIVE then
        { p with status := Status.CONTRADICTED } else p) = p
    rw [if_neg]
    rintro ⟨_, hact⟩
    exact hp hact

/-- `addEdgeIfAbsent` only ever appends to the edge list. -/
theorem addEdgeIfAbsent_shape (st : Ledger) (e : Edge) :
    (addEdgeIfAbsent st e).props = st.props ∧
      (∃ t, (addEdgeIfAbsent st e).edges = st.edges ++ t) ∧
      (addEdgeIfAbsent st e).watermark = st.watermark := by
  rw [addEdgeIfAbsent]
  split
  · exact ⟨rfl, ⟨[], by simp⟩, rfl⟩
  · exact ⟨rfl, ⟨[e], rfl⟩, rfl⟩

/-- One state-machine application: the proposition list changes only through
a status-only map, the edge list only grows, the watermark is untouched. -/
theorem applyVerdict_shape (st : Ledger) (nid oid : Nat)
    (np op : Proposition) (v : Verdict) (conf : ℚ) :
    ∃ g t, (applyVerdict st nid oid np op v conf).props = st.props.map g ∧
      statusOnly g ∧
      (applyVerdict st nid oid np op v conf).edges = st.edges ++ t ∧
      (applyVerdict st nid oid np op v conf).watermark = st.watermark := by
  cases v with
  | UNRELATED =>
    exact ⟨id, [], by simp [applyVerdict], statusOnly_id,
      by simp [applyVerdict], rfl⟩
  | SUPPORTS =>
    obtain ⟨hp, ⟨t, ht⟩, hw⟩ := addEdgeIfAbsent_shape st
      ⟨nid, oid, EdgeType.SUPPORTS, conf, np.recorded_at⟩
    exact ⟨id, t, by simp [applyVerdict, hp], statusOnly_id,
      by simpa [applyVerdict] using ht, by simpa [applyVerdict] using hw⟩
  | SUPERSEDES =>
    obtain ⟨hp, ⟨t, ht⟩, hw⟩ := addEdgeIfAbsent_shape st
      ⟨nid, oid, EdgeType.SUPERSEDES, conf, np.recorded_at⟩
    set st1 := addEdgeIfAbsent st
      ⟨nid, oid, EdgeType.SUPERSEDES, conf, np.recorded_at⟩ with hst1
    by_cases hop : op.status = Status.ACTIVE
    · obtain ⟨g, hg1, hg2, hg3, hg4⟩ :=
        closeSuperseded_shape st1 oid np.recorded_at
      refine ⟨g, t, ?_, hg2, ?_, ?_⟩
      · show (if op.status = Status.ACTIVE then
            closeSuperseded st1 oid np.recorded_at else st1).props = _
        rw [if_pos hop, hg1, hp]
      · show (if op.status = Status.ACTIVE then
            closeSuperseded st1 oid np.recorded_at else st1).edges = _
        rw [if_pos hop, hg3, ht]
      · show (if op.status = Status.ACTIVE then
            closeSuperseded st1 oid np.recorded_at else st1).watermark = _
        rw [if_pos hop, hg4, hw]
    · refine ⟨id, t, ?_, statusOnly_id, ?_, ?_⟩
      · show (if op.status = Status.ACTIVE then
            closeSuperseded st1 oid np.recorded_at else st1).props = _
        rw [if_neg hop, hp]
        simp
      · show (if op.status = Status.ACTIVE then
            closeSuperseded st1 oid np.recorded_at else st1).edges = _
        rw [if_neg hop, ht]
      · show (if op.status = Status.ACTIVE then
            closeSuperseded st1 oid np.recorded_at else st1).watermark = _
        rw [if_neg hop, hw]
  | CONTRADICTS =>
    obtain ⟨hp, ⟨t, ht⟩, hw⟩ := addEdgeIfAbsent_shape st
      ⟨nid, oid, EdgeType.CONTRADICTS, conf, np.recorded_at⟩
    set st1 := addEdgeIfAbsent st
      ⟨nid, oid, EdgeType.CONTRADICTS, conf, np.recorded_at⟩ with hst1
    by_cases hop : op.status = Status.ACTIVE
    · obtain ⟨g1, hg11, hg12, hg13, hg14⟩ := markContradicted_shape st1 oid
      obtain ⟨g2, hg21, hg22, hg23, hg24⟩ :=
        markContradicted_shape (markContradicted st1 oid) nid
      refine ⟨g2 ∘ g1, t, ?_, statusOnly_comp hg12 hg22, ?_, ?_⟩
      · show (if op.status = Status.ACTIVE then
            markContradicted (markContradicted st1 oid) nid else st1).props = _
        rw [if_pos hop, hg21, hg11, hp, List.map_map]
      · show (if op.status = Status.ACTIVE then
            markContradicted (markContradicted st1 oid) nid else st1).edges = _
        rw [if_pos hop, hg23, hg13, ht]
      · show (if op.status = Status.ACTIVE then
            markContradicted (markContradicted st1 oid) nid
          else st1).watermark = _
        rw [if_pos hop, hg24, hg14, hw]
    · refine ⟨id, t, ?_, statusOnly_id, ?_, ?_⟩
      · show (if op.status = Status.ACTIVE then
            markContradicted (markContradicted st1 oid) nid else st1).props = _
        rw [if_neg hop, hp]
        simp
      · show (if op.status = Status.ACTIVE then
            markContradicted (markContradicted st1 oid) nid else st1).edges = _
        rw [if_neg hop, ht]
      · show (if op.status = Status.ACTIVE then
            markContradicted (markContradicted st1 oid) nid
          else st1).watermark = _
        rw [if_neg hop, hw]

/-- One processed pair: status-only proposition change, append-only edges,
untouched watermark. -/
theorem processPair_shape (c : Classifier) (st : Ledger) (pr : Nat × Nat) :
    ∃ g t, (processPair c st pr).props = st.props.map g ∧ statusOnly g ∧
      (processPair c st pr).edges = st.edges ++ t ∧
      (processPair c st pr).watermark = st.watermark := by
  rcases hf1 : findProp st pr.1 with _ | np
  · exact ⟨id, [], by simp [processPair, hf1], statusOnly_id,
      by simp [processPair, hf1], by simp [processPair, hf1]⟩
  rcases hf2 : findProp st pr.2 with _ | op
  · exact ⟨id, [], by simp [processPair, hf1, hf2], statusOnly_id,
      by simp [processPair, hf1, hf2], by simp [processPair, hf1, hf2]⟩
  obtain ⟨g, t, h1, h2, h3, h4⟩ := applyVerdict_shape st pr.1 pr.2 np op
    (interpretResponse (c pr.1 pr.2)).1 (interpretResponse (c pr.1 pr.2)).2
  exact ⟨g, t, by simpa [processPair, hf1, hf2] using h1, h2,
    by simpa [processPair, hf1, hf2] using h3,
    by simpa [processPair, hf1, hf2] using h4⟩

/-- A whole fold of processed pairs keeps the status-only / append-only /
fixed-watermark shape. -/
theorem foldl_processPair_shape (c : Classifier) (l : List (Nat × Nat)) :
    ∀ st : Ledger, ∃ g t,
      (l.foldl (processPair c) st).props = st.props.map g ∧ statusOnly g ∧
      (l.foldl (processPair c) st).edges = st.edges ++ t ∧
      (l.foldl (processPair c) st).watermark = st.watermark := by
  induction l with
  | nil =>
    intro st
    exact ⟨id, [], by simp, statusOnly_id, by simp, rfl⟩
  | cons pr rest ih =>
    intro st
    obtain ⟨g1, t1, h11, h12, h13, h14⟩ := processPair_shape c st pr
    obtain ⟨g2, t2, h21, h22, h23, h24⟩ := ih (processPair c st pr)
    refine ⟨g2 ∘ g1, t1 ++ t2, ?_, statusOnly_comp h12 h22, ?_, ?_⟩
    · rw [List.foldl_cons, h21, h11, List.map_map]
    · rw [List.foldl_cons, h23, h13, List.append_assoc]
    · rw [List.foldl_cons, h24, h14]

/-- A full Process Engine run: status-only proposition change, append-only
edges. -/
theorem processNew_shape (c : Classifier) (k : Nat) (θ : ℚ) (st : Ledger) :
    ∃ g t, (processNew c k θ st).props = st.props.map g ∧ statusOnly g ∧
      (processNew c k θ st).edges = st.edges ++ t ∧
      (processNew c k θ st).watermark =
        batchMax st.watermark (newPropositions st) := by
  obtain ⟨g, t, h1, h2, h3, _⟩ := foldl_processPair_shape c (runPairs st k θ) st
  exact ⟨g, t, h1, h2, h3, rfl⟩

end ShapeLemmas

section EngineClaims

open Voku

/-- A status-only map preserves id, content, embedding and recorded_at. -/
theorem statusOnly_fields {g : Proposition → Proposition} (hg : statusOnly g)
    (q : Proposition) :
    (g q).id = q.id ∧ (g q).content = q.content ∧
      (g q).embedding = q.embedding ∧ (g q).recorded_at = q.recorded_at := by
  have h := (hg q).1
  rw [frameOf, frameOf, Prod.mk.injEq, Prod.mk.injEq, Prod.mk.injEq,
    Prod.mk.injEq] at h
  exact ⟨h.1, h.2.1, h.2.2.1, h.2.2.2.1⟩

/-- Starting the batch maximum from `some w` yields a maximum at least `w`. -/
theorem batchMax_ge_init (ps : List Voku.Proposition) :
    ∀ w : Nat, ∃ m, batchMax (some w) ps = some m ∧ w ≤ m := by
  induction ps with
  | nil => intro w; exact ⟨w, rfl, le_refl w⟩
  | cons q rest ih =>
    intro w
    obtain ⟨m, hm, hle⟩ := ih (max w q.recorded_at)
    exact ⟨m, hm, le_trans (le_max_left _ _) hle⟩

/-- The batch maximum dominates every member's `recorded_at`. -/
theorem batchMax_ge_mem (ps : List Voku.Proposition) :
    ∀ (wm : Option Nat) (p : Voku.Proposition), p ∈ ps →
      ∃ m, batchMax wm ps = some m ∧ p.recorded_at ≤ m := by
  induction ps with
  | nil => intro wm p hp; cases hp
  | cons q rest ih =>
    intro wm p hp
    rcases List.mem_cons.mp hp with rfl | hrest
    · cases wm with
      | none =>
        obtain ⟨m, hm, hle⟩ := batchMax_ge_init rest p.recorded_at
        exact ⟨m, by simpa [batchMax] using hm, hle⟩
      | some w =>
        obtain ⟨m, hm, hle⟩ := batchMax_ge_init rest (max w p.recorded_at)
        exact ⟨m, by simpa [batchMax] using hm,
          le_trans (le_max_right _ _) hle⟩
    · cases wm with
      | none =>
        obtain ⟨m, hm, hle⟩ := ih (some q.recorded_at) p hrest
        exact ⟨m, by simpa [batchMax] using hm, hle⟩
      | some w =>
        obtain ⟨m, hm, hle⟩ := ih (some (max w q.recorded_at)) p hrest
        exact ⟨m, by simpa [batchMax] using hm, hle⟩

/-- C8: after creation, every operation leaves a proposition's content and
embedding (and id, recorded_at, valid_from) unchanged — a Process Engine run
changes only status / valid_to, its edge writes are append-only (no stored
edge is ever mutated or deleted), and ingestion appends without touching
stored propositions or edges. -/
theorem C8_immutable_frame (c : Classifier) (k : Nat) (θ : ℚ) (st : Ledger)
    (pn : Proposition) :
    (processNew c k θ st).props.map frameOf = st.props.map frameOf ∧
    (∃ t, (processNew c k θ st).edges = st.edges ++ t) ∧
    (ingestProposition st pn).edges = st.edges ∧
    (∃ t, (ingestProposition st pn).props = st.props ++ t) := by
  obtain ⟨g, t, h1, h2, h3, _⟩ := processNew_shape c k θ st
  refine ⟨?_, ⟨t, h3⟩, ?_, ?_⟩
  · rw [h1, List.map_map]
    apply List.map_congr_left
    intro p _
    exact (h2 p).1
  · rw [ingestProposition]
    split <;> rfl
  · rw [ingestProposition]
    split
    · exact ⟨[], by simp⟩
    · exact ⟨[pn], rfl⟩

/-- C6: a failed or unparseable classifier call is interpreted as UNRELATED
with confidence 0, the affected pair changes nothing (no edge, no status
change), and removing that pair from a batch leaves the run's result on all
other pairs and propositions unchanged. -/
theorem C6_classifier_failure_isolated (c : Classifier) (a b : Nat)
    (hfail : c a b = none ∨
      ∃ r, c a b = some r ∧ parseRelationship r.relationship = none) :
    interpretResponse (c a b) = (Verdict.UNRELATED, 0) ∧
    (∀ st, processPair c st (a, b) = st) ∧
    ∀ (st : Ledger) (l1 l2 : List (Nat × Nat)),
      (l1 ++ (a, b) :: l2).foldl (processPair c) st =
        (l1 ++ l2).foldl (processPair c) st := by
  have hint : interpretResponse (c a b) = (Verdict.UNRELATED, 0) := by
    rcases hfail with h | ⟨r, hr, hp⟩
    · rw [h, interpretResponse]
    · rw [hr]
      simp [interpretResponse, hp]
  have hid : ∀ st, processPair c st (a, b) = st := by
    intro st
    rcases hf1 : findProp st a with _ | np
    · simp [processPair, hf1]
    rcases hf2 : findProp st b with _ | op
    · simp [processPair, hf1, hf2]
    simp [processPair, hf1, hf2, hint, applyVerdict]
  refine ⟨hint, hid, ?_⟩
  intro st l1 l2
  rw [List.foldl_append, List.foldl_append, List.foldl_cons, hid]

/-- Witness for C6: with an always-failing classifier the failing pair is a
no-op and drops out of a batch containing another pair. -/
theorem C6_witness :
    processPair exFailing exLedger2 (2, 1) = exLedger2 ∧
      [(9, 9), (2, 1)].foldl (processPair exFailing) exLedger2 =
        [(9, 9)].foldl (processPair exFailing) exLedger2 := by
  have h := C6_classifier_failure_isolated exFailing 2 1 (Or.inl rfl)
  refine ⟨h.2.1 exLedger2, ?_⟩
  have h2 := h.2.2 exLedger2 [(9, 9)] []
  simpa using h2

end EngineClaims

section IdempotenceClaim

open Voku

/-- Any edge present after `addEdgeIfAbsent` was either already stored, or is
the new edge and no same-type edge linked the pair before. -/
theorem addEdgeIfAbsent_mem (st : Ledger) (e e' : Edge)
    (he' : e' ∈ (addEdgeIfAbsent st e).edges) :
    e' ∈ st.edges ∨
      (e' = e ∧
        edgeBetween st e.source_id e.target_id e.type = false) := by
  rw [addEdgeIfAbsent] at he'
  by_cases hc : edgeBetween st e.source_id e.target_id e.type = true
  · rw [if_pos hc] at he'
    exact Or.inl he'
  · rw [if_neg hc] at he'
    rcases List.mem_append.mp he' with h | h
    · exact Or.inl h
    · rw [List.mem_singleton] at h
      exact Or.inr ⟨h, Bool.eq_false_iff.mpr hc⟩

/-- The edge-existence check and the symmetric duplicate count agree: no
same-type edge links the pair exactly when the count is zero. -/
theorem edgeBetween_eq_false_iff (st : Ledger) (a b : Nat) (t : EdgeType) :
    edgeBetween st a b t = false ↔ edgeKeyCount st a b t = 0 := by
  rw [edgeBetween, edgeKeyCount, List.length_eq_zero,
    List.filter_eq_nil_iff, List.any_eq_false]

/-- The duplicate count is symmetric in the pair. -/
theorem edgeKeyCount_symm (st : Ledger) (a b : Nat) (t : EdgeType) :
    edgeKeyCount st a b t = edgeKeyCount st b a t := by
  rw [edgeKeyCount, edgeKeyCount]
  congr 1
  apply List.filter_congr
  intro e _
  rw [Bool.or_comm]

/-- The guarded edge write preserves the at-most-one-edge-per-pair-and-type
invariant. -/
theorem addEdgeIfAbsent_count (st : Ledger) (e : Edge) (a b : Nat)
    (t : EdgeType) (h : edgeKeyCount st a b t ≤ 1) :
    edgeKeyCount (addEdgeIfAbsent st e) a b t ≤ 1 := by
  rw [addEdgeIfAbsent]
  by_cases hc : edgeBetween st e.source_id e.target_id e.type = true
  · rw [if_pos hc]
    exact h
  · rw [if_neg hc]
    have hc0 : edgeKeyCount st e.source_id e.target_id e.type = 0 :=
      (edgeBetween_eq_false_iff st e.source_id e.target_id e.type).mp
        (Bool.eq_false_iff.mpr hc)
    show ((st.edges ++ [e]).filter (fun x =>
        x.type = t &&
          ((x.source_id = a && x.target_id = b) ||
            (x.source_id = b && x.target_id = a)))).length ≤ 1
    rw [List.filter_append, List.length_append]
    by_cases hpe : (e.type = t &&
        ((e.source_id = a && e.target_id = b) ||
          (e.source_id = b && e.target_id = a))) = true
    · have hck : edgeKeyCount st a b t = 0 := by
        simp only [Bool.and_eq_true, Bool.or_eq_true,
          decide_eq_true_eq] at hpe
        obtain ⟨hty, hdir⟩ := hpe
        rcases hdir with ⟨ha, hb⟩ | ⟨ha, hb⟩
        · rw [← hty, ← ha, ← hb]
          exact hc0
        · rw [← hty, ← ha, ← hb]
          rw [edgeKeyCount_symm]
          exact hc0
      have hlen0 : (st.edges.filter (fun x =>
          x.type = t &&
            ((x.source_id = a && x.target_id = b) ||
              (x.source_id = b && x.target_id = a)))).length = 0 := hck
      rw [hlen0]
      have hle := List.length_filter_le (fun x : Edge =>
          x.type = t &&
            ((x.source_id = a && x.target_id = b) ||
              (x.source_id = b && x.target_id = a))) [e]
      simp only [List.length_singleton] at hle
      omega
    · have hnil : ([e].filter (fun x =>
          x.type = t &&
            ((x.source_id = a && x.target_id = b) ||
              (x.source_id = b && x.target_id = a)))) = [] := by
        rw [List.filter_eq_nil_iff]
        intro x hx
        rw [List.mem_singleton] at hx
        subst hx
        exact hpe
      rw [hnil]
      simpa using h

/-- One state-machine application preserves the at-most-one-edge invariant. -/
theorem applyVerdict_count (st : Ledger) (nid oid : Nat)
    (np op : Proposition) (v : Verdict) (conf : ℚ) (a b : Nat)
    (t : EdgeType) (h : edgeKeyCount st a b t ≤ 1) :
    edgeKeyCount (applyVerdict st nid oid np op v conf) a b t ≤ 1 := by
  cases v with
  | UNRELATED => exact h
  | SUPPORTS =>
    exact addEdgeIfAbsent_count st
      ⟨nid, oid, EdgeType.SUPPORTS, conf, np.recorded_at⟩ a b t h
  | SUPERSEDES =>
    have hadd := addEdgeIfAbsent_count st
      ⟨nid, oid, EdgeType.SUPERSEDES, conf, np.recorded_at⟩ a b t h
    show edgeKeyCount (if op.status = Status.ACTIVE then
        closeSuperseded (addEdgeIfAbsent st
          ⟨nid, oid, EdgeType.SUPERSEDES, conf, np.recorded_at⟩) oid
          np.recorded_at
      else addEdgeIfAbsent st
        ⟨nid, oid, EdgeType.SUPERSEDES, conf, np.recorded_at⟩) a b t ≤ 1
    split
    · exact hadd
    · exact hadd
  | CONTRADICTS =>
    have hadd := addEdgeIfAbsent_count st
      ⟨nid, oid, EdgeType.CONTRADICTS, conf, np.recorded_at⟩ a b t h
    show edgeKeyCount (if op.status = Status.ACTIVE then
        markContradicted (markContradicted (addEdgeIfAbsent st
          ⟨nid, oid, EdgeType.CONTRADICTS, conf, np.recorded_at⟩) oid) nid
      else addEdgeIfAbsent st
        ⟨nid, oid, EdgeType.CONTRADICTS, conf, np.recorded_at⟩) a b t ≤ 1
    split
    · exact hadd
    · exact hadd

/-- One processed pair preserves the at-most-one-edge invariant. -/
theorem processPair_count (c : Classifier) (st : Ledger) (pr : Nat × Nat)
    (a b : Nat) (t : EdgeType) (h : edgeKeyCount st a b t ≤ 1) :
    edgeKeyCount (processPair c st pr) a b t ≤ 1 := by
  rcases hf1 : findProp st pr.1 with _ | np
  · simp only [processPair, hf1]
    exact h
  rcases hf2 : findProp st pr.2 with _ | op
  · simp only [processPair, hf1, hf2]
    exact h
  simp only [processPair, hf1, hf2]
  exact applyVerdict_count st pr.1 pr.2 np op _ _ a b t h

/-- A whole fold of processed pairs preserves the at-most-one-edge
invariant. -/
theorem foldl_processPair_count (c : Classifier) (l : List (Nat × Nat)) :
    ∀ (st : Ledger) (a b : Nat) (t : EdgeType),
      edgeKeyCount st a b t ≤ 1 →
      edgeKeyCount (l.foldl (processPair c) st) a b t ≤ 1 := by
  induction l with
  | nil => intro st a b t h; exact h
  | cons pr rest ih =>
    intro st a b t h
    rw [List.foldl_cons]
    exact ih (processPair c st pr) a b t (processPair_count c st pr a b t h)

/-- After a run the watermark has advanced past every proposition: the next
scan over "strictly newer than the mark" finds nothing. -/
theorem processNew_rescan_empty (c : Classifier) (k : Nat) (θ : ℚ)
    (st : Ledger) : newPropositions (processNew c k θ st) = [] := by
  obtain ⟨g, t, h1, h2, h3, h4⟩ := processNew_shape c k θ st
  rw [newPropositions, List.filter_eq_nil_iff]
  intro p' hp'
  rw [h1] at hp'
  rcases List.mem_map.mp hp' with ⟨p, hp, rfl⟩
  rw [(statusOnly_fields h2 p).2.2.2, h4]
  by_cases hnew : isNewB st.watermark p.recorded_at = true
  · have hmem : p ∈ newPropositions st := List.mem_filter.mpr ⟨hp, hnew⟩
    obtain ⟨m, hm, hle⟩ := batchMax_ge_mem (newPropositions st)
      st.watermark p hmem
    rw [hm]
    simp only [isNewB, Bool.not_eq_true, decide_eq_false_iff_not, not_lt]
    exact hle
  · rcases hw : st.watermark with _ | w
    · rw [hw] at hnew
      exact absurd rfl hnew
    · rw [hw] at hnew
      simp only [isNewB, decide_eq_true_eq] at hnew
      obtain ⟨m, hm, hwm⟩ := batchMax_ge_init (newPropositions st) w
      rw [hm]
      simp only [isNewB, Bool.not_eq_true, decide_eq_false_iff_not,
        not_lt]
      omega

/-- C4: re-running the Process Engine over an already-processed window is a
no-op — the whole ledger (statuses, valid_to, edges, watermark) is unchanged
by a second run; the advanced high-water mark leaves nothing strictly newer
to scan; a run never pushes the number of same-type edges between a pair
above one (no duplicate Edges); and no step ever appends an edge unless no
edge of that type already links the pair. -/
theorem C4_reprocessing_idempotent :
    (∀ (c : Classifier) (k : Nat) (θ : ℚ) (st : Ledger),
      processNew c k θ (processNew c k θ st) = processNew c k θ st) ∧
    (∀ (c : Classifier) (k : Nat) (θ : ℚ) (st : Ledger),
      newPropositions (processNew c k θ st) = []) ∧
    (∀ (c : Classifier) (k : Nat) (θ : ℚ) (st : Ledger) (a b : Nat)
      (t : EdgeType), edgeKeyCount st a b t ≤ 1 →
      edgeKeyCount (processNew c k θ st) a b t ≤ 1) ∧
    (∀ (c : Classifier) (st : Ledger) (pr : Nat × Nat) (e' : Edge),
      e' ∈ (processPair c st pr).edges →
      e' ∈ st.edges ∨
        edgeBetween st e'.source_id e'.target_id e'.type = false) := by
  refine ⟨?_, processNew_rescan_empty, ?_, ?_⟩
  · intro c k θ st
    set st1 := processNew c k θ st with hst1
    have hempty : newPropositions st1 = [] := by
      rw [hst1]
      exact processNew_rescan_empty c k θ st
    have hpairs : runPairs st1 k θ = [] := by
      rw [runPairs, hempty]
      rfl
    show processNew c k θ st1 = st1
    rw [processNew, hpairs, hempty]
    show { st1 with watermark := batchMax st1.watermark [] } = st1
    obtain ⟨ps, es, wm⟩ := st1
    rfl
  · intro c k θ st a b t h
    show edgeKeyCount ((runPairs st k θ).foldl (processPair c) st) a b t ≤ 1
    exact foldl_processPair_count c (runPairs st k θ) st a b t h
  · intro c st pr e' he'
    rcases hf1 : findProp st pr.1 with _ | np
    · rw [processPair] at he'
      rw [hf1] at he'
      exact Or.inl he'
    rcases hf2 : findProp st pr.2 with _ | op
    · rw [processPair] at he'
      rw [hf1, hf2] at he'
      exact Or.inl he'
    rw [processPair, hf1, hf2] at he'
    rcases hv : (interpretResponse (c pr.1 pr.2)).1 with _ | _ | _ | _
    all_goals rw [hv] at he'
    · -- SUPPORTS
      simp only [applyVerdict] at he'
      rcases addEdgeIfAbsent_mem st _ e' he' with h | ⟨rfl, hguard⟩
      · exact Or.inl h
      · exact Or.inr hguard
    · -- CONTRADICTS
      simp only [applyVerdict] at he'
      have hedges : (if op.status = Status.ACTIVE then
          markContradicted (markContradicted (addEdgeIfAbsent st
            ⟨pr.1, pr.2, EdgeType.CONTRADICTS,
              (interpretResponse (c pr.1 pr.2)).2, np.recorded_at⟩)
            pr.2) pr.1
        else addEdgeIfAbsent st
          ⟨pr.1, pr.2, EdgeType.CONTRADICTS,
            (interpretResponse (c pr.1 pr.2)).2, np.recorded_at⟩).edges =
          (addEdgeIfAbsent st
            ⟨pr.1, pr.2, EdgeType.CONTRADICTS,
              (interpretResponse (c pr.1 pr.2)).2,
              np.recorded_at⟩).edges := by
        split <;> rfl
      rw [hedges] at he'
      rcases addEdgeIfAbsent_mem st _ e' he' with h | ⟨rfl, hguard⟩
      · exact Or.inl h
      · exact Or.inr hguard
    · -- SUPERSEDES
      simp only [applyVerdict] at he'
      have hedges : (if op.status = Status.ACTIVE then
          closeSuperseded (addEdgeIfAbsent st
            ⟨pr.1, pr.2, EdgeType.SUPERSEDES,
              (interpretResponse (c pr.1 pr.2)).2, np.recorded_at⟩)
            pr.2 np.recorded_at
        else addEdgeIfAbsent st
          ⟨pr.1, pr.2, EdgeType.SUPERSEDES,
            (interpretResponse (c pr.1 pr.2)).2, np.recorded_at⟩).edges =
          (addEdgeIfAbsent st
            ⟨pr.1, pr.2, EdgeType.SUPERSEDES,
              (interpretResponse (c pr.1 pr.2)).2,
              np.recorded_at⟩).edges := by
        split <;> rfl
      rw [hedges] at he'
      rcases addEdgeIfAbsent_mem st _ e' he' with h | ⟨rfl, hguard⟩
      · exact Or.inl h
      · exact Or.inr hguard
    · -- UNRELATED
      simp only [applyVerdict] at he'
      exact Or.inl he'

end IdempotenceClaim

section ClosedFrozenClaim

open Voku

/-- Witness for C4: a concrete double run equals the single run, the
concrete rescan is empty, the run keeps at most one SUPERSEDES edge between
the processed pair, and the edge the run created passed the absence guard. -/
theorem C4_witness :
    (processNew exSupersedes 5 (3 / 5)
        (processNew exSupersedes 5 (3 / 5) exLedger2) =
      processNew exSupersedes 5 (3 / 5) exLedger2) ∧
    newPropositions (processNew exSupersedes 5 (3 / 5) exLedger2) = [] ∧
    edgeKeyCount (processNew exSupersedes 5 (3 / 5) exLedger2) 2 1
      EdgeType.SUPERSEDES ≤ 1 ∧
    ((⟨2, 1, EdgeType.SUPERSEDES, 9 / 10, 2⟩ : Edge) ∈ exLedger2.edges ∨
      edgeBetween exLedger2 2 1 EdgeType.SUPERSEDES = false) := by
  refine ⟨C4_reprocessing_idempotent.1 exSupersedes 5 (3 / 5) exLedger2,
    C4_reprocessing_idempotent.2.1 exSupersedes 5 (3 / 5) exLedger2,
    C4_reprocessing_idempotent.2.2.1 exSupersedes 5 (3 / 5) exLedger2 2 1
      EdgeType.SUPERSEDES (of_decide_eq_true (by with_unfolding_all rfl)),
    ?_⟩
  exact C4_reprocessing_idempotent.2.2.2 exSupersedes exLedger2 (2, 1)
    ⟨2, 1, EdgeType.SUPERSEDES, 9 / 10, 2⟩
    (of_decide_eq_true (by with_unfolding_all rfl))

/-- C7: a proposition that is already SUPERSEDED, CONTRADICTED or ARCHIVED is
never changed by a Process Engine run — the record the ledger resolves for
its id (status, valid_to and all) is identical afterwards; and for a pair
whose older member is closed, the state machine still records the verdict's
edge (when absent) while changing no proposition at all. -/
theorem C7_closed_props_never_transition :
    (∀ (c : Classifier) (k : Nat) (θ : ℚ) (st : Ledger) (i : Nat)
      (p : Proposition), findProp st i = some p →
      (p.status = Status.SUPERSEDED ∨ p.status = Status.CONTRADICTED ∨
        p.status = Status.ARCHIVED) →
      findProp (processNew c k θ st) i = some p) ∧
    (∀ (st : Ledger) (nid oid : Nat) (np op : Proposition) (v : Verdict)
      (conf : ℚ) (ty : EdgeType), op.status ≠ Status.ACTIVE →
      verdictEdge v = some ty →
      (applyVerdict st nid oid np op v conf).props = st.props ∧
      (edgeBetween st nid oid ty = false →
        edgeBetween (applyVerdict st nid oid np op v conf) nid oid ty
          = true)) := by
  constructor
  · intro c k θ st i p hfind hclosed
    have hne : p.status ≠ Status.ACTIVE := by
      rcases hclosed with h | h | h <;> rw [h] <;> intro hc <;> cases hc
    obtain ⟨g, t, h1, h2, _, _⟩ := processNew_shape c k θ st
    rw [findProp, h1, List.find?_map]
    have hpred : ((fun q : Proposition => (q.id = i : Bool)) ∘ g) =
        (fun q : Proposition => (q.id = i : Bool)) := by
      funext q
      rw [Function.comp_apply, (statusOnly_fields h2 q).1]
    rw [hpred]
    rw [findProp] at hfind
    rw [hfind]
    show some (g p) = some p
    rw [(h2 p).2 hne]
  · intro st nid oid np op v conf ty hop hv
    cases v with
    | UNRELATED => cases hv
    | SUPPORTS =>
      cases hv
      constructor
      · show (addEdgeIfAbsent st
          ⟨nid, oid, EdgeType.SUPPORTS, conf, np.recorded_at⟩).props
            = st.props
        rw [addEdgeIfAbsent]
        split <;> rfl
      · intro hguard
        show edgeBetween (addEdgeIfAbsent st
          ⟨nid, oid, EdgeType.SUPPORTS, conf, np.recorded_at⟩) nid oid
            EdgeType.SUPPORTS = true
        rw [addEdgeIfAbsent]
        rw [if_neg (by rw [hguard]; exact Bool.false_ne_true)]
        rw [edgeBetween]
        simp [List.any_append]
    | CONTRADICTS =>
      cases hv
      constructor
      · show (if op.status = Status.ACTIVE then
            markContradicted (markContradicted (addEdgeIfAbsent st
              ⟨nid, oid, EdgeType.CONTRADICTS, conf, np.recorded_at⟩) oid)
              nid
          else addEdgeIfAbsent st
            ⟨nid, oid, EdgeType.CONTRADICTS, conf, np.recorded_at⟩).props
            = st.props
        rw [if_neg hop, addEdgeIfAbsent]
        split <;> rfl
      · intro hguard
        show edgeBetween (if op.status = Status.ACTIVE then
            markContradicted (markContradicted (addEdgeIfAbsent st
              ⟨nid, oid, EdgeType.CONTRADICTS, conf, np.recorded_at⟩) oid)
              nid
          else addEdgeIfAbsent st
            ⟨nid, oid, EdgeType.CONTRADICTS, conf, np.recorded_at⟩) nid oid
            EdgeType.CONTRADICTS = true
        rw [if_neg hop, addEdgeIfAbsent]
        rw [if_neg (by rw [hguard]; exact Bool.false_ne_true)]
        rw [edgeBetween]
        simp [List.any_append]
    | SUPERSEDES =>
      cases hv
      constructor
      · show (if op.status = Status.ACTIVE then
            closeSuperseded (addEdgeIfAbsent st
              ⟨nid, oid, EdgeType.SUPERSEDES, conf, np.recorded_at⟩) oid
              np.recorded_at
          else addEdgeIfAbsent st
            ⟨nid, oid, EdgeType.SUPERSEDES, conf, np.recorded_at⟩).props
            = st.props
        rw [if_neg hop, addEdgeIfAbsent]
        split <;> rfl
      · intro hguard
        show edgeBetween (if op.status = Status.ACTIVE then
            closeSuperseded (addEdgeIfAbsent st
              ⟨nid, oid, EdgeType.SUPERSEDES, conf, np.recorded_at⟩) oid
              np.recorded_at
          else addEdgeIfAbsent st
            ⟨nid, oid, EdgeType.SUPERSEDES, conf, np.recorded_at⟩) nid oid
            EdgeType.SUPERSEDES = true
        rw [if_neg hop, addEdgeIfAbsent]
        rw [if_neg (by rw [hguard]; exact Bool.false_ne_true)]
        rw [edgeBetween]
        simp [List.any_append]

/-- Witness for C7: a concrete closed proposition survives a run with an
always-SUPERSEDES classifier untouched, and a pair with a closed older
member still records its edge without changing any proposition. -/
theorem C7_witness :
    findProp (processNew exSupersedes 5 (3 / 5) exLedgerClosed) 3
        = some exClosed ∧
    ((applyVerdict exLedgerClosed 2 3 exP2 exClosed Verdict.SUPERSEDES
        (9 / 10)).props = exLedgerClosed.props ∧
      (edgeBetween exLedgerClosed 2 3 EdgeType.SUPERSEDES = false →
        edgeBetween (applyVerdict exLedgerClosed 2 3 exP2 exClosed
          Verdict.SUPERSEDES (9 / 10)) 2 3 EdgeType.SUPERSEDES = true)) := by
  constructor
  · exact C7_closed_props_never_transition.1 exSupersedes 5 (3 / 5)
      exLedgerClosed 3 exClosed (by with_unfolding_all rfl) (Or.inl rfl)
  · exact C7_closed_props_never_transition.2 exLedgerClosed 2 3 exP2 exClosed
      Verdict.SUPERSEDES (9 / 10) EdgeType.SUPERSEDES
      (by intro h; cases h) rfl

end ClosedFrozenClaim

section PairScenario

open Voku

/-- In a two-proposition ledger whose newer member is past the watermark and
similar enough to the strictly older one, a Process Engine run submits
exactly the (newer, older) pair to the classifier. -/
theorem runPairs_two (p1 p2 : Proposition) (wm : Option Nat) (k : Nat)
    (θ : ℚ) (h_id : p1.id ≠ p2.id)
    (h_t : p1.recorded_at < p2.recorded_at)
    (h_new : isNewB wm p2.recorded_at = true)
    (h_sim : θ ≤ dot p1.embedding p2.embedding) (h_k : 1 ≤ k) :
    runPairs ⟨[p1, p2], [], wm⟩ k θ = [(p2.id, p1.id)] := by
  obtain ⟨n, rfl⟩ : ∃ n, k = n + 1 := ⟨k - 1, by omega⟩
  have hnlt : ¬ p2.recorded_at < p1.recorded_at := not_lt.mpr (le_of_lt h_t)
  have hc1 : candidatesFor ⟨[p1, p2], [], wm⟩ (n + 1) θ p1 = [] := by
    simp [candidatesFor, lt_irrefl, hnlt]
  have hc2 : candidatesFor ⟨[p1, p2], [], wm⟩ (n + 1) θ p2 = [p1.id] := by
    simp [candidatesFor, h_t, h_id, h_sim, anyEdgeBetween, lt_irrefl,
      List.mergeSort_singleton]
  rw [runPairs, newPropositions]
  cases hb1 : isNewB wm p1.recorded_at <;>
    simp [hb1, h_new, hc1, hc2]

end PairScenario

section SupersessionClaim

open Voku

/-- The full Process Engine run over the two-proposition supersession
scenario, computed: the older proposition is closed (SUPERSEDED, valid_to set
to the newer's recorded_at), the newer is untouched, and one SUPERSEDES edge
newer→older is stored. -/
theorem processNew_two_supersedes (p1 p2 : Proposition) (c : Classifier)
    (wm : Option Nat) (k : Nat) (θ conf : ℚ) (rs : String)
    (h_id : p1.id ≠ p2.id) (h_s1 : p1.status = Status.ACTIVE)
    (h_t : p1.recorded_at < p2.recorded_at)
    (h_new : isNewB wm p2.recorded_at = true)
    (h_sim : θ ≤ dot p1.embedding p2.embedding) (h_k : 1 ≤ k)
    (h_cls : c p2.id p1.id = some ⟨"SUPERSEDES", conf, rs⟩) :
    processNew c k θ ⟨[p1, p2], [], wm⟩ =
      ⟨[{ p1 with
            status := Status.SUPERSEDED
            valid_to := some p2.recorded_at }, p2],
        [⟨p2.id, p1.id, EdgeType.SUPERSEDES, conf, p2.recorded_at⟩],
        batchMax wm (newPropositions ⟨[p1, p2], [], wm⟩)⟩ := by
  have hid2 : p2.id ≠ p1.id := Ne.symm h_id
  have hint : interpretResponse (c p2.id p1.id)
      = (Verdict.SUPERSEDES, conf) := by
    rw [h_cls]
    have hparse : parseRelationship "SUPERSEDES"
        = some Verdict.SUPERSEDES := by
      with_unfolding_all rfl
    simp [interpretResponse, hparse]
  have hf2 : findProp ⟨[p1, p2], [], wm⟩ p2.id = some p2 := by
    simp [findProp, List.find?, h_id]
  have hf1 : findProp ⟨[p1, p2], [], wm⟩ p1.id = some p1 := by
    simp [findProp, List.find?]
  rw [processNew, runPairs_two p1 p2 wm k θ h_id h_t h_new h_sim h_k]
  simp only [List.foldl_cons, List.foldl_nil]
  rw [processPair]
  simp only [hf2, hf1, hint]
  simp [applyVerdict, addEdgeIfAbsent, edgeBetween, closeSuperseded, h_s1,
    hid2]

/-- C1: for a pair P1 (older, ACTIVE) and P2 (newer, past the watermark and
candidate-similar) for which the classifier returns SUPERSEDES(P2→P1), after
the Process Engine run P1.status = SUPERSEDED, P1.valid_to = P2.recorded_at,
P2.status = ACTIVE, and a SUPERSEDES edge P2→P1 exists. -/
theorem C1_supersession_invariant (p1 p2 : Proposition) (c : Classifier)
    (wm : Option Nat) (k : Nat) (θ conf : ℚ) (rs : String)
    (h_id : p1.id ≠ p2.id) (h_s1 : p1.status = Status.ACTIVE)
    (h_s2 : p2.status = Status.ACTIVE)
    (h_t : p1.recorded_at < p2.recorded_at)
    (h_new : isNewB wm p2.recorded_at = true)
    (h_sim : θ ≤ dot p1.embedding p2.embedding) (h_k : 1 ≤ k)
    (h_cls : c p2.id p1.id = some ⟨"SUPERSEDES", conf, rs⟩) :
    statusOf (processNew c k θ ⟨[p1, p2], [], wm⟩) p1.id
        = some Status.SUPERSEDED ∧
    validToOf (processNew c k θ ⟨[p1, p2], [], wm⟩) p1.id
        = some (some p2.recorded_at) ∧
    statusOf (processNew c k θ ⟨[p1, p2], [], wm⟩) p2.id
        = some Status.ACTIVE ∧
    ∃ e ∈ (processNew c k θ ⟨[p1, p2], [], wm⟩).edges,
      e.source_id = p2.id ∧ e.target_id = p1.id ∧
        e.type = EdgeType.SUPERSEDES := by
  rw [processNew_two_supersedes p1 p2 c wm k θ conf rs h_id h_s1 h_t h_new
    h_sim h_k h_cls]
  refine ⟨?_, ?_, ?_, ?_⟩
  · simp [statusOf, findProp, List.find?]
  · simp [validToOf, findProp, List.find?]
  · have hdec : decide (p1.id = p2.id) = false := decide_eq_false h_id
    simp [statusOf, findProp, List.find?, hdec, h_s2]
  · exact ⟨⟨p2.id, p1.id, EdgeType.SUPERSEDES, conf, p2.recorded_at⟩,
      by simp, rfl, rfl, rfl⟩

/-- Witness for C1: the concrete ankle/breathing supersession scenario. -/
theorem C1_witness :
    statusOf (processNew exSupersedes 5 (3 / 5) exLedger2) 1
        = some Status.SUPERSEDED ∧
    validToOf (processNew exSupersedes 5 (3 / 5) exLedger2) 1
        = some (some 2) ∧
    statusOf (processNew exSupersedes 5 (3 / 5) exLedger2) 2
        = some Status.ACTIVE ∧
    ∃ e ∈ (processNew exSupersedes 5 (3 / 5) exLedger2).edges,
      e.source_id = 2 ∧ e.target_id = 1 ∧ e.type = EdgeType.SUPERSEDES := by
  have h := C1_supersession_invariant exP1 exP2 exSupersedes none 5 (3 / 5)
    (9 / 10) "r" (by decide) rfl rfl (by decide) rfl
    (of_decide_eq_true (by with_unfolding_all rfl)) (by decide) rfl
  exact h

end SupersessionClaim

section ContradictionClaim

open Voku

/-- The full Process Engine run over the two-proposition contradiction
scenario, computed: both propositions end CONTRADICTED and exactly one
CONTRADICTS edge is stored. -/
theorem processNew_two_contradicts (p1 p2 : Proposition) (c : Classifier)
    (wm : Option Nat) (k : Nat) (θ conf : ℚ) (rs : String)
    (h_id : p1.id ≠ p2.id) (h_s1 : p1.status = Status.ACTIVE)
    (h_s2 : p2.status = Status.ACTIVE)
    (h_t : p1.recorded_at < p2.recorded_at)
    (h_new : isNewB wm p2.recorded_at = true)
    (h_sim : θ ≤ dot p1.embedding p2.embedding) (h_k : 1 ≤ k)
    (h_cls : c p2.id p1.id = some ⟨"CONTRADICTS", conf, rs⟩) :
    processNew c k θ ⟨[p1, p2], [], wm⟩ =
      ⟨[{ p1 with status := Status.CONTRADICTED },
        { p2 with status := Status.CONTRADICTED }],
        [⟨p2.id, p1.id, EdgeType.CONTRADICTS, conf, p2.recorded_at⟩],
        batchMax wm (newPropositions ⟨[p1, p2], [], wm⟩)⟩ := by
  have hid2 : p2.id ≠ p1.id := Ne.symm h_id
  have hint : interpretResponse (c p2.id p1.id)
      = (Verdict.CONTRADICTS, conf) := by
    rw [h_cls]
    have hparse : parseRelationship "CONTRADICTS"
        = some Verdict.CONTRADICTS := by
      with_unfolding_all rfl
    simp [interpretResponse, hparse]
  have hf2 : findProp ⟨[p1, p2], [], wm⟩ p2.id = some p2 := by
    simp [findProp, List.find?, h_id]
  have hf1 : findProp ⟨[p1, p2], [], wm⟩ p1.id = some p1 := by
    simp [findProp, List.find?]
  rw [processNew, runPairs_two p1 p2 wm k θ h_id h_t h_new h_sim h_k]
  simp only [List.foldl_cons, List.foldl_nil]
  rw [processPair]
  simp only [hf2, hf1, hint]
  simp [applyVerdict, addEdgeIfAbsent, edgeBetween, markContradicted, h_s1,
    h_s2, hid2]

/-- C5: for an unordered pair of ACTIVE propositions for which the classifier
returns CONTRADICTS, after the Process Engine run both propositions have
status CONTRADICTED and exactly one CONTRADICTS edge is recorded between
them (counting both directions). -/
theorem C5_contradiction_symmetry (p1 p2 : Proposition) (c : Classifier)
    (wm : Option Nat) (k : Nat) (θ conf : ℚ) (rs : String)
    (h_id : p1.id ≠ p2.id) (h_s1 : p1.status = Status.ACTIVE)
    (h_s2 : p2.status = Status.ACTIVE)
    (h_t : p1.recorded_at < p2.recorded_at)
    (h_new : isNewB wm p2.recorded_at = true)
    (h_sim : θ ≤ dot p1.embedding p2.embedding) (h_k : 1 ≤ k)
    (h_cls : c p2.id p1.id = some ⟨"CONTRADICTS", conf, rs⟩) :
    statusOf (processNew c k θ ⟨[p1, p2], [], wm⟩) p1.id
        = some Status.CONTRADICTED ∧
    statusOf (processNew c k θ ⟨[p1, p2], [], wm⟩) p2.id
        = some Status.CONTRADICTED ∧
    ((processNew c k θ ⟨[p1, p2], [], wm⟩).edges.filter
        (contradictsBetween p1.id p2.id)).length = 1 := by
  rw [processNew_two_contradicts p1 p2 c wm k θ conf rs h_id h_s1 h_s2 h_t
    h_new h_sim h_k h_cls]
  have hdec : decide (p1.id = p2.id) = false := decide_eq_false h_id
  have hdec2 : decide (p2.id = p1.id) = false :=
    decide_eq_false (Ne.symm h_id)
  refine ⟨?_, ?_, ?_⟩
  · simp [statusOf, findProp, List.find?]
  · simp [statusOf, findProp, List.find?, hdec]
  · simp [contradictsBetween, hdec2]

/-- Witness for C5: the concrete two-proposition contradiction scenario. -/
theorem C5_witness :
    statusOf (processNew exContradicts 5 (3 / 5) exLedger2) 1
        = some Status.CONTRADICTED ∧
    statusOf (processNew exContradicts 5 (3 / 5) exLedger2) 2
        = some Status.CONTRADICTED ∧
    ((processNew exContradicts 5 (3 / 5) exLedger2).edges.filter
        (contradictsBetween 1 2)).length = 1 := by
  have h := C5_contradiction_symmetry exP1 exP2 exContradicts none 5 (3 / 5)
    (9 / 10) "r" (by decide) rfl rfl (by decide) rfl
    (of_decide_eq_true (by with_unfolding_all rfl)) (by decide) rfl
  exact h

end ContradictionClaim

section RetrievalClaim

open Voku

/-- C2: when the top raw-similarity match for a query is a SUPERSEDED
proposition, temporal retrieval (without history requested) ranks the ACTIVE
proposition that supersedes it strictly above it — even when the superseded
one has higher raw similarity — and the superseded proposition is still
present in the results (deprioritized, not hidden). -/
theorem C2_retrieval_substitution (st : Ledger) (q : List ℚ) (limit : Nat)
    (tw : ℚ) (now : Nat) (pa ps : Proposition)
    (h_pa : pa ∈ st.props) (h_ps : ps ∈ st.props)
    (h_ids : (st.props.map (fun p => p.id)).Nodup)
    (h_sa : pa.status = Status.ACTIVE) (h_ss : ps.status = Status.SUPERSEDED)
    (h_edge : ∃ e ∈ st.edges, e.source_id = pa.id ∧ e.target_id = ps.id ∧
      e.type = EdgeType.SUPERSEDES)
    (h_top : ∀ p ∈ st.props, dot p.embedding q ≤ dot ps.embedding q)
    (h_bound : ∀ p ∈ st.props, |dot p.embedding q| ≤ 1)
    (h_tw0 : 0 ≤ tw) (h_tw1 : tw ≤ 1)
    (h_lim : st.props.length ≤ limit) :
    (retrieve st q limit tw now false).findIdx
        (fun r => r.prop_id = pa.id) <
      (retrieve st q limit tw now false).findIdx
        (fun r => r.prop_id = ps.id) ∧
    (retrieve st q limit tw now false).findIdx
        (fun r => r.prop_id = ps.id) <
      (retrieve st q limit tw now false).length := by
  classical
  set f : Proposition → RetrievalResult := fun p =>
    RetrievalResult.mk p.id
      (combinedScore (dot p.embedding q) (recencyScore now p.recorded_at) tw
        - statusPenalty p.status) with hf
  have hre : retrieve st q limit tw now false =
      ((st.props.map f).mergeSort
        (fun a b => b.score ≤ a.score)).take limit := rfl
  set scored := st.props.map f with hscored
  set sorted := scored.mergeSort (fun a b => b.score ≤ a.score) with hsorted
  have hperm : sorted.Perm scored := List.mergeSort_perm scored _
  have hlen : sorted.length = st.props.length := by
    rw [hperm.length_eq, hscored, List.length_map]
  have hout : retrieve st q limit tw now false = sorted := by
    rw [hre]
    exact List.take_of_length_le (by rw [hlen]; exact h_lim)
  have hinj : ∀ x ∈ st.props, ∀ y ∈ st.props, x.id = y.id → x = y := by
    intro x hx y hy hxy
    exact List.inj_on_of_nodup_map h_ids hx hy hxy
  have hrec : ∀ t : Nat, 0 < recencyScore now t ∧ recencyScore now t ≤ 1 := by
    intro t
    rw [recencyScore]
    have ha : (0 : ℚ) ≤ ((now - t : Nat) : ℚ) := Nat.cast_nonneg _
    constructor
    · apply div_pos one_pos
      linarith
    · rw [div_le_one (by linarith)]
      linarith
  have hscore_lt : (f ps).score < (f pa).score := by
    have hba := abs_le.mp (h_bound pa h_pa)
    have hbs := abs_le.mp (h_bound ps h_ps)
    have hra := hrec pa.recorded_at
    have hrs := hrec ps.recorded_at
    rw [hf]
    simp only [h_sa, h_ss]
    rw [combinedScore, combinedScore, statusPenalty, statusPenalty]
    have h1 : dot pa.embedding q * (1 - tw) ≥ (-1) * (1 - tw) :=
      mul_le_mul_of_nonneg_right hba.1 (by linarith)
    have h2 : recencyScore now pa.recorded_at * tw ≥ 0 :=
      mul_nonneg (le_of_lt hra.1) h_tw0
    have h3 : dot ps.embedding q * (1 - tw) ≤ 1 * (1 - tw) :=
      mul_le_mul_of_nonneg_right hbs.2 (by linarith)
    have h4 : recencyScore now ps.recorded_at * tw ≤ 1 * tw :=
      mul_le_mul_of_nonneg_right hrs.2 h_tw0
    linarith
  have hmem_pa : f pa ∈ sorted :=
    hperm.symm.mem_iff.mp (List.mem_map_of_mem f h_pa)
  have hmem_ps : f ps ∈ sorted :=
    hperm.symm.mem_iff.mp (List.mem_map_of_mem f h_ps)
  have hid_elem : ∀ x ∈ sorted, ∀ p0 ∈ st.props, x.prop_id = p0.id →
      x = f p0 := by
    intro x hx p0 hp0 hxid
    have hxs : x ∈ scored := hperm.mem_iff.mp hx
    rcases List.mem_map.mp hxs with ⟨p', hp', rfl⟩
    have : p' = p0 := hinj p' hp' p0 hp0 hxid
    rw [this]
  have hpair : List.Pairwise
      (fun a b : RetrievalResult => b.score ≤ a.score) sorted :=
    pairwise_mergeSort_key RetrievalResult.score scored
  have hfi_ps : sorted.findIdx (fun r => r.prop_id = ps.id)
      < sorted.length := by
    rw [List.findIdx_lt_length]
    exact ⟨f ps, hmem_ps, by simp [hf]⟩
  have hfi_pa : sorted.findIdx (fun r => r.prop_id = pa.id)
      < sorted.length := by
    rw [List.findIdx_lt_length]
    exact ⟨f pa, hmem_pa, by simp [hf]⟩
  set ia := sorted.findIdx (fun r => r.prop_id = pa.id) with hia
  set is' := sorted.findIdx (fun r => r.prop_id = ps.id) with his
  have hget_pa : sorted[ia] = f pa := by
    have hp := @List.findIdx_getElem _ (fun r => r.prop_id = pa.id)
      sorted hfi_pa
    simp only [decide_eq_true_eq] at hp
    exact hid_elem _ (List.getElem_mem hfi_pa) pa h_pa hp
  have hget_ps : sorted[is'] = f ps := by
    have hp := @List.findIdx_getElem _ (fun r => r.prop_id = ps.id)
      sorted hfi_ps
    simp only [decide_eq_true_eq] at hp
    exact hid_elem _ (List.getElem_mem hfi_ps) ps h_ps hp
  have hne : ia ≠ is' := by
    intro hcontra
    have heq : f pa = f ps := by
      rw [← hget_pa, ← hget_ps]
      congr 1
    have hid : pa.id = ps.id := congrArg RetrievalResult.prop_id heq
    have : pa = ps := hinj pa h_pa ps h_ps hid
    rw [this, h_ss] at h_sa
    cases h_sa
  have hlt : ia < is' := by
    rcases lt_or_ge ia is' with h | h
    · exact h
    · exfalso
      have hlt2 : is' < ia := lt_of_le_of_ne h (Ne.symm hne)
      have := (List.pairwise_iff_getElem.mp hpair) is' ia hfi_ps hfi_pa hlt2
      simp only [hget_pa, hget_ps] at this
      exact absurd this (not_le.mpr hscore_lt)
  rw [hout]
  exact ⟨hlt, hfi_ps⟩

/-- Witness for C2: on the concrete ledger the superseded "ankle"
proposition has raw similarity 1 to the query while the ACTIVE superseding
"breathing" proposition has only 3/5, yet retrieval ranks the ACTIVE one
first with the superseded one still present. -/
theorem C2_witness :
    (retrieve exRetrLedger [1, 0] 2 (1 / 2) 3 false).findIdx
        (fun r => r.prop_id = 2) <
      (retrieve exRetrLedger [1, 0] 2 (1 / 2) 3 false).findIdx
        (fun r => r.prop_id = 1) ∧
    (retrieve exRetrLedger [1, 0] 2 (1 / 2) 3 false).findIdx
        (fun r => r.prop_id = 1) <
      (retrieve exRetrLedger [1, 0] 2 (1 / 2) 3 false).length := by
  have h := C2_retrieval_substitution exRetrLedger [1, 0] 2 (1 / 2) 3
    ⟨2, "breathing", [3 / 5, 4 / 5], 2, 2, none, Status.ACTIVE, 1⟩
    ⟨1, "ankle", [1, 0], 1, 1, some 2, Status.SUPERSEDED, 1⟩
    (of_decide_eq_true (by with_unfolding_all rfl))
    (of_decide_eq_true (by with_unfolding_all rfl))
    (of_decide_eq_true (by with_unfolding_all rfl))
    rfl rfl
    (of_decide_eq_true (by with_unfolding_all rfl))
    (of_decide_eq_true (by with_unfolding_all rfl))
    (of_decide_eq_true (by with_unfolding_all rfl))
    (of_decide_eq_true (by with_unfolding_all rfl))
    (of_decide_eq_true (by with_unfolding_all rfl))
    (of_decide_eq_true (by with_unfolding_all rfl))
  exact h

end RetrievalClaim
